import Mathlib

/-!
Verification of the anonymous-chat matchmaking server (two variants in the
repository: the tag-aware variant in src/unnamed/part_000 and the plain-queue
variant in src/server.js).  The JavaScript state (JS Map objects, arrays) is
embedded as association lists respecting Map insertion order; the socket.io
transport is embedded as an explicit list of live socket ids plus a step
function per incoming event that returns the new state and the list of
emitted events.
-/

set_option maxHeartbeats 1000000

/-! ### Association lists, mirroring JS Map semantics.

A JS Map has unique keys; Map.set updates an existing key in place (keeping
its insertion position) and appends a fresh key; Map.delete removes the single
entry of that key; iteration is in insertion order. -/

section MapOps

variable {β : Type}

/-- Map.get: first (unique) entry of the key. -/
def mget : List (String × β) → String → Option β
  | [], _ => none
  | e :: t, k => if e.1 = k then some e.2 else mget t k

/-- Map.set: in-place update of an existing key, append of a fresh one. -/
def mset : List (String × β) → String → β → List (String × β)
  | [], k, v => [(k, v)]
  | e :: t, k, v => if e.1 = k then (k, v) :: t else e :: mset t k v

/-- Map.delete: removes the (first, hence unique) entry of the key. -/
def mdel : List (String × β) → String → List (String × β)
  | [], _ => []
  | e :: t, k => if e.1 = k then t else e :: mdel t k

/-- Keys of the map, in insertion order. -/
def mkeys (l : List (String × β)) : List String := l.map Prod.fst

/-- Array.splice of the first occurrence found by indexOf (no-op if absent). -/
def eraseFirst : List String → String → List String
  | [], _ => []
  | x :: t, k => if x = k then t else x :: eraseFirst t k

end MapOps

/-! ### JS dynamic values, as far as the payload handling needs them. -/

/-- A JS value arriving in an event payload (`payload.text`, tag array
elements).  `junder` stands for undefined (in particular a missing field),
`jnull` for null. -/
inductive JVal : Type
  | jstr (s : String)
  | jnum (n : Int)
  | jbool (b : Bool)
  | junder
  | jnull
deriving DecidableEq, Repr

/-- JS truthiness of a value (NaN is not modelled). -/
def jtruthy : JVal → Bool
  | .jstr s => s ≠ ""
  | .jnum n => n ≠ 0
  | .jbool b => b
  | .junder => false
  | .jnull => false

/-- JS String(v) coercion. -/
def jToString : JVal → String
  | .jstr s => s
  | .jnum n => toString n
  | .jbool b => if b then "true" else "false"
  | .junder => "undefined"
  | .jnull => "null"

/-- JS `v || ''` followed by String(): falsy values collapse to the empty
string, truthy ones are coerced. -/
def jOrEmptyString (v : JVal) : String :=
  if jtruthy v then jToString v else ""

/-- JS `typeof v === 'string'` projection. -/
def jIsString : JVal → Option String
  | .jstr s => some s
  | _ => none

/-- JS string whitespace for trim (space, tab, newline, carriage return). -/
def jsWs (c : Char) : Bool :=
  c = ' ' || c = '\t' || c = '\n' || c = '\r'

/-- JS String.prototype.trim. -/
def jsTrim (s : String) : String :=
  ⟨((s.data.dropWhile jsWs).reverse.dropWhile jsWs).reverse⟩

/-- JS String.prototype.slice(0, n) (code units approximated by characters). -/
def jsTake (s : String) (n : Nat) : String :=
  ⟨s.data.take n⟩

/-! ### Events emitted by the server towards the clients. -/

/-- Server → client events of both variants.  `stats` carries the
`{online, chatting}` payload broadcast by the part_000 variant. -/
inductive Emit : Type
  | waiting
  | matched
  | partnerLeft
  | msgReceive (text : String) (ts : Nat)
  | typingStart
  | typingStop
  | errNoPartner
  | errRatelimit
  | stats (online chatting : Nat)
deriving DecidableEq, Repr

/-- An emission: either to one socket (socket.emit / partnerSock.emit) or a
broadcast to every connected socket (io.emit). -/
inductive Out : Type
  | toSock (id : String) (e : Emit)
  | broadcast (e : Emit)
deriving DecidableEq, Repr

/-- Client → server events the claims are about (typing indicators change no
matchmaking state and are omitted). -/
inductive Ev : Type
  | connect
  | findPartner (tags : Option (List JVal))
  | msgSend (text : JVal)
  | chatEnd
  | disconnect
deriving DecidableEq, Repr

/-! ### The tag-aware variant (src/unnamed/part_000). -/

namespace P0

/-- A waiting-pool entry: `{ tags: [...], at: timestamp }` (source field
name `at` is a Lean keyword, rendered `enqueuedAt`). -/
structure WEntry : Type where
  tags : List String
  enqueuedAt : Nat
deriving DecidableEq, Repr

/-- The module-level `state` object plus the socket.io registry
(`io.sockets.sockets`, kept as the list of live socket ids). -/
structure MState : Type where
  online : Nat
  chatting : Nat
  waiting : List (String × WEntry)
  peers : List (String × String)
  live : List String
deriving DecidableEq, Repr

/-- Initial state: empty registry. -/
def initState : MState := ⟨0, 0, [], [], []⟩

/-- normalizeTags: non-arrays become []; elements are String(t||'')-coerced,
trimmed, empties are dropped, at most 10 kept. -/
def normalizeTags : Option (List JVal) → List String
  | none => []
  | some l => ((l.map fun t => jsTrim (jOrEmptyString t)).filter (· ≠ "")).take 10

/-- haveCommonTag: false if either list is empty, else some b-tag is an
a-tag (exact string equality). -/
def haveCommonTag (aTags bTags : List String) : Bool :=
  if aTags.isEmpty || bTags.isEmpty then false
  else bTags.any fun t => aTags.contains t

/-- The `ok` disjunction inside tryMatch, kept with the source's redundant
first disjunct. -/
def okTags (tags otherTags : List String) : Bool :=
  (tags.isEmpty && otherTags.isEmpty) || tags.isEmpty || otherTags.isEmpty ||
    haveCommonTag tags otherTags

/-- isChatting. -/
def isChatting (s : MState) (id : String) : Bool :=
  (mget s.peers id).isSome

/-- The stats payload of broadcastStats: `{ online, chatting }`. -/
def statsOut (s : MState) : Out :=
  .broadcast (.stats s.online s.chatting)

/-- endChat: unlink both sides, decrement `chatting` (clamped at 0 like
Math.max), notify the partner if its socket is live, then broadcastStats. -/
def endChat (s : MState) (id : String) (notifyPartner : Bool) : MState × List Out :=
  match mget s.peers id with
  | some partnerId =>
    let s' : MState := { s with peers := mdel (mdel s.peers id) partnerId,
                                chatting := s.chatting - 2 }
    let outs := if notifyPartner && partnerId ∈ s.live
                then [Out.toSock partnerId .partnerLeft] else []
    (s', outs ++ [statsOut s'])
  | none => (s, [statsOut s])

/-- removeFromQueue. -/
def removeFromQueue (s : MState) (id : String) : MState :=
  { s with waiting := mdel s.waiting id }

/-- The scan inside tryMatch: first waiting entry that is not the requester,
not chatting, and tag-compatible. -/
def firstCandidate (s : MState) (id : String) (tags : List String) :
    Option (String × WEntry) :=
  s.waiting.find? fun e =>
    decide (e.1 ≠ id) && !(isChatting s e.1) && okTags tags e.2.tags

/-- tryMatch: scan the pool in insertion order; on no candidate, enqueue the
requester and emit `waiting`; if the chosen candidate's socket is gone, drop
it from the pool and retry the scan; else remove both from the pool, link
them, bump `chatting` and emit `matched` to both (the random cosmetic display
ids in the payload are not modelled). -/
def tryMatch (s : MState) (id : String) (tags : List String) (now : Nat) :
    MState × List Out :=
  if isChatting s id then (s, [])
  else
    match h : firstCandidate s id tags with
    | none =>
      let s' : MState := { s with waiting := mset s.waiting id ⟨tags, now⟩ }
      (s', [Out.toSock id .waiting, statsOut s'])
    | some (chosenId, cinfo) =>
      if chosenId ∈ s.live then
        let s' : MState :=
          { s with waiting := mdel (mdel s.waiting chosenId) id,
                   peers := mset (mset s.peers id chosenId) chosenId id,
                   chatting := s.chatting + 2 }
        (s', [Out.toSock id .matched, Out.toSock chosenId .matched, statsOut s'])
      else
        tryMatch { s with waiting := mdel s.waiting chosenId } id tags now
termination_by s.waiting.length
decreasing_by
  have hmem : (chosenId, cinfo) ∈ s.waiting := List.mem_of_find?_eq_some h
  show (mdel s.waiting chosenId).length < s.waiting.length
  clear h
  generalize s.waiting = l at hmem ⊢
  induction l with
  | nil => cases hmem
  | cons e t ih =>
    by_cases he : e.1 = chosenId
    · simp [mdel, he, Nat.lt_succ_self]
    · rcases List.mem_cons.mp hmem with h1 | h1
      · exact absurd (congrArg Prod.fst h1).symm he
      · simpa [mdel, he] using Nat.succ_lt_succ (ih h1)

/-- The find:partner handler: end any current chat (notifying the old
partner), leave the waiting pool, then tryMatch with the normalized tags. -/
def findPartner (s : MState) (id : String) (now : Nat)
    (rawTags : Option (List JVal)) : MState × List Out :=
  let tags := normalizeTags rawTags
  let r1 := if isChatting s id then endChat s id true else (s, [])
  let s2 := removeFromQueue r1.1 id
  let r3 := tryMatch s2 id tags now
  (r3.1, r1.2 ++ r3.2)

/-- The message:send handler: String(payload.text||'')-coerce and trim; drop
if empty; no partner → the no-partner error (source event name
'error:noparter'); else forward to the partner if its socket is live.  No
rate limiting and no truncation in this variant. -/
def msgSend (s : MState) (id : String) (now : Nat) (v : JVal) :
    MState × List Out :=
  let text := jsTrim (jOrEmptyString v)
  if text = "" then (s, [])
  else
    match mget s.peers id with
    | none => (s, [Out.toSock id .errNoPartner])
    | some partnerId =>
      if partnerId ∈ s.live
      then (s, [Out.toSock partnerId (.msgReceive text now)])
      else (s, [])

/-- The chat:end handler: endChat then removeFromQueue. -/
def chatEnd (s : MState) (id : String) : MState × List Out :=
  let r := endChat s id true
  (removeFromQueue r.1 id, r.2)

/-- The disconnect handler: the transport drops the socket, then
removeFromQueue, endChat, online decrement (clamped) and broadcastStats. -/
def disconnect (s : MState) (id : String) : MState × List Out :=
  let s0 : MState := { s with live := s.live.erase id }
  let s1 := removeFromQueue s0 id
  let r2 := endChat s1 id true
  let s3 : MState := { r2.1 with online := r2.1.online - 1 }
  (s3, r2.2 ++ [statsOut s3])

/-- The connection handler: register the socket, bump online, broadcastStats
and send the initial stats:update to the new socket. -/
def connect (s : MState) (id : String) : MState × List Out :=
  let s1 : MState := { s with live := id :: s.live, online := s.online + 1 }
  (s1, [statsOut s1, Out.toSock id (.stats s1.online s1.chatting)])

/-- One step of the part_000 server: dispatch an incoming event. -/
def step (s : MState) (id : String) (now : Nat) : Ev → MState × List Out
  | .connect => connect s id
  | .findPartner tags => findPartner s id now tags
  | .msgSend v => msgSend s id now v
  | .chatEnd => chatEnd s id
  | .disconnect => disconnect s id

/-- getStats of the part_000 variant: `{online, chatting, waiting}`. -/
structure MStats : Type where
  online : Nat
  chatting : Nat
  waiting : Nat
deriving DecidableEq, Repr

/-- getStats. -/
def getStats (s : MState) : MStats :=
  ⟨s.online, s.chatting, s.waiting.length⟩

end P0

/-- Reachable states of the part_000 server: any interleaving of events from
the transport, which guarantees fresh ids on connect and delivers events and
disconnects only for connected sockets. -/
inductive MReach : P0.MState → Prop where
  | init : MReach P0.initState
  | connect (s : P0.MState) (id : String) (now : Nat) :
      MReach s → id ∉ s.live → MReach (P0.step s id now .connect).1
  | findPartner (s : P0.MState) (id : String) (now : Nat)
      (tags : Option (List JVal)) :
      MReach s → id ∈ s.live → MReach (P0.step s id now (.findPartner tags)).1
  | msgSend (s : P0.MState) (id : String) (now : Nat) (v : JVal) :
      MReach s → id ∈ s.live → MReach (P0.step s id now (.msgSend v)).1
  | chatEnd (s : P0.MState) (id : String) (now : Nat) :
      MReach s → id ∈ s.live → MReach (P0.step s id now .chatEnd).1
  | disconnect (s : P0.MState) (id : String) (now : Nat) :
      MReach s → id ∈ s.live → MReach (P0.step s id now .disconnect).1

/-! ### The plain-queue variant (src/server.js). -/

namespace SJ

/-- CONFIG.MAX_MSG_LEN. -/
def MAX_MSG_LEN : Nat := 500

/-- CONFIG.MAX_MSGS_MIN. -/
def MAX_MSGS_MIN : Nat := 60

/-- A msgCount entry: `{ count, resetAt }`. -/
structure Rate : Type where
  count : Nat
  resetAt : Nat
deriving DecidableEq, Repr

/-- The module-level state (waitingQueue array, activePairs map, msgCount
map) plus the socket registry. -/
structure SState : Type where
  waitingQueue : List String
  activePairs : List (String × String)
  msgCount : List (String × Rate)
  live : List String
deriving DecidableEq, Repr

/-- Initial state. -/
def initState : SState := ⟨[], [], [], []⟩

/-- checkMsgRate: fixed 60-second window anchored at the first message after
expiry; returns the updated msgCount map and whether the message passed. -/
def checkMsgRate (mc : List (String × Rate)) (socketId : String) (now : Nat) :
    List (String × Rate) × Bool :=
  let d0 := (mget mc socketId).getD ⟨0, now + 60000⟩
  let d1 := if now > d0.resetAt then (⟨0, now + 60000⟩ : Rate) else d0
  let d2 : Rate := ⟨d1.count + 1, d1.resetAt⟩
  (mset mc socketId d2, d2.count ≤ MAX_MSGS_MIN)

/-- cleanupUser: leave the queue, notify and unlink the partner, clear the
rate counter. -/
def cleanupUser (s : SState) (socketId : String) : SState × List Out :=
  let q := eraseFirst s.waitingQueue socketId
  match mget s.activePairs socketId with
  | some partnerId =>
    let outs := if partnerId ∈ s.live then [Out.toSock partnerId .partnerLeft] else []
    ({ s with waitingQueue := q,
              activePairs := mdel (mdel s.activePairs partnerId) socketId,
              msgCount := mdel s.msgCount socketId }, outs)
  | none =>
    ({ s with waitingQueue := q,
              activePairs := mdel s.activePairs socketId,
              msgCount := mdel s.msgCount socketId }, [])

/-- tryMatch: splice out the first queue entry other than the requester,
splice the requester out as well, link the two and emit `matched` to both
live sockets (random cosmetic display ids not modelled); returns false when
no other entry exists. -/
def tryMatch (s : SState) (socketId : String) : SState × List Out × Bool :=
  match s.waitingQueue.find? (fun i => decide (i ≠ socketId)) with
  | none => (s, [], false)
  | some partnerId =>
    let q := eraseFirst (eraseFirst s.waitingQueue partnerId) socketId
    let pairs := mset (mset s.activePairs socketId partnerId) partnerId socketId
    let outs :=
      (if socketId ∈ s.live then [Out.toSock socketId .matched] else []) ++
      (if partnerId ∈ s.live then [Out.toSock partnerId .matched] else [])
    ({ s with waitingQueue := q, activePairs := pairs }, outs, true)

/-- The find:partner handler: unlink (and notify) any current partner, join
the queue if not already in it, tryMatch, and emit `waiting` on failure. -/
def findPartner (s : SState) (socketId : String) : SState × List Out :=
  let r1 :=
    match mget s.activePairs socketId with
    | some oldPartner =>
      ({ s with activePairs := mdel (mdel s.activePairs oldPartner) socketId },
       if oldPartner ∈ s.live then [Out.toSock oldPartner .partnerLeft] else [])
    | none => (s, ([] : List Out))
  let s2 := if socketId ∈ r1.1.waitingQueue then r1.1
            else { r1.1 with waitingQueue := r1.1.waitingQueue ++ [socketId] }
  let r3 := tryMatch s2 socketId
  (r3.1, r1.2 ++ r3.2.1 ++ (if r3.2.2 then [] else [Out.toSock socketId .waiting]))

/-- The message:send handler: non-strings are dropped silently; the text is
trimmed then sliced to MAX_MSG_LEN and dropped if empty; the rate limiter
runs next (before the partner check); then no partner → 'error:nopartner';
else forward the cleaned text if the partner socket is live. -/
def msgSend (s : SState) (socketId : String) (now : Nat) (v : JVal) :
    SState × List Out :=
  match jIsString v with
  | none => (s, [])
  | some text =>
    let clean := jsTake (jsTrim text) MAX_MSG_LEN
    if clean = "" then (s, [])
    else
      let rc := checkMsgRate s.msgCount socketId now
      let s1 : SState := { s with msgCount := rc.1 }
      if !rc.2 then (s1, [Out.toSock socketId .errRatelimit])
      else
        match mget s1.activePairs socketId with
        | none => (s1, [Out.toSock socketId .errNoPartner])
        | some partnerId =>
          if partnerId ∈ s1.live
          then (s1, [Out.toSock partnerId (.msgReceive clean now)])
          else (s1, [])

/-- The chat:end handler: notify and unlink the partner, then unlink self. -/
def chatEnd (s : SState) (socketId : String) : SState × List Out :=
  match mget s.activePairs socketId with
  | some partnerId =>
    ({ s with activePairs := mdel (mdel s.activePairs partnerId) socketId },
     if partnerId ∈ s.live then [Out.toSock partnerId .partnerLeft] else [])
  | none => ({ s with activePairs := mdel s.activePairs socketId }, [])

/-- The disconnect handler: the transport drops the socket, then cleanupUser
runs. -/
def disconnect (s : SState) (socketId : String) : SState × List Out :=
  cleanupUser { s with live := s.live.erase socketId } socketId

/-- The connection handler (registration only; no emission modelled). -/
def connect (s : SState) (socketId : String) : SState × List Out :=
  ({ s with live := socketId :: s.live }, [])

/-- One step of the server.js server.  The find:partner payload carries no
tags in this variant, so the tags field of the event is ignored. -/
def step (s : SState) (id : String) (now : Nat) : Ev → SState × List Out
  | .connect => connect s id
  | .findPartner _ => findPartner s id
  | .msgSend v => msgSend s id now v
  | .chatEnd => chatEnd s id
  | .disconnect => disconnect s id

/-- getStats of server.js: `{online, waiting, chatting}` with
`chatting = activePairs.size / 2` (the process uptime field is omitted). -/
structure SStats : Type where
  online : Nat
  waiting : Nat
  chatting : Nat
deriving DecidableEq, Repr

/-- getStats. -/
def getStats (s : SState) : SStats :=
  ⟨s.live.length, s.waitingQueue.length, s.activePairs.length / 2⟩

end SJ

/-- Reachable states of the server.js server. -/
inductive SReach : SJ.SState → Prop where
  | init : SReach SJ.initState
  | connect (s : SJ.SState) (id : String) (now : Nat) :
      SReach s → id ∉ s.live → SReach (SJ.step s id now .connect).1
  | findPartner (s : SJ.SState) (id : String) (now : Nat)
      (tags : Option (List JVal)) :
      SReach s → id ∈ s.live → SReach (SJ.step s id now (.findPartner tags)).1
  | msgSend (s : SJ.SState) (id : String) (now : Nat) (v : JVal) :
      SReach s → id ∈ s.live → SReach (SJ.step s id now (.msgSend v)).1
  | chatEnd (s : SJ.SState) (id : String) (now : Nat) :
      SReach s → id ∈ s.live → SReach (SJ.step s id now .chatEnd).1
  | disconnect (s : SJ.SState) (id : String) (now : Nat) :
      SReach s → id ∈ s.live → SReach (SJ.step s id now .disconnect).1

/-! ### Lemmas about the map operations. -/

section MapLemmas

variable {β : Type}

@[simp] theorem mkeys_nil : mkeys ([] : List (String × β)) = [] := rfl

@[simp] theorem mkeys_cons (e : String × β) (t : List (String × β)) :
    mkeys (e :: t) = e.1 :: mkeys t := rfl

theorem mget_mset_self (l : List (String × β)) (k : String) (v : β) :
    mget (mset l k v) k = some v := by
  induction l with
  | nil => simp [mget, mset]
  | cons e t ih =>
    by_cases h : e.1 = k
    · simp [mget, mset, h]
    · simp [mget, mset, h, ih]

theorem mget_mset_ne (l : List (String × β)) {k k' : String} (v : β)
    (h : k' ≠ k) : mget (mset l k v) k' = mget l k' := by
  have h' : ¬ k = k' := fun hh => h hh.symm
  induction l with
  | nil => simp [mget, mset, h']
  | cons e t ih =>
    by_cases he : e.1 = k
    · subst he
      simp [mget, mset, h']
    · by_cases he' : e.1 = k' <;> simp [mget, mset, he, he', ih, h]

theorem mem_mkeys_iff_mget (l : List (String × β)) (k : String) :
    k ∈ mkeys l ↔ (mget l k).isSome := by
  induction l with
  | nil => simp [mget]
  | cons e t ih =>
    by_cases h : e.1 = k
    · simp [mget, h]
    · rw [mkeys_cons, List.mem_cons]
      simp only [mget, if_neg h]
      rw [← ih]
      constructor
      · rintro (h1 | h1)
        · exact absurd h1.symm h
        · exact h1
      · exact Or.inr

theorem mget_eq_none_of_not_mem (l : List (String × β)) (k : String)
    (h : k ∉ mkeys l) : mget l k = none := by
  have := (mem_mkeys_iff_mget l k).not.mp h
  cases hg : mget l k with
  | none => rfl
  | some v => exact absurd (by simp [hg]) this

theorem not_mem_mkeys_of_mget_none (l : List (String × β)) (k : String)
    (h : mget l k = none) : k ∉ mkeys l := by
  intro hm
  have := (mem_mkeys_iff_mget l k).mp hm
  simp [h] at this

theorem mem_mkeys_of_mget_some (l : List (String × β)) {k : String} {v : β}
    (h : mget l k = some v) : k ∈ mkeys l :=
  (mem_mkeys_iff_mget l k).mpr (by simp [h])

theorem mget_mdel_self (l : List (String × β)) (k : String)
    (hnd : (mkeys l).Nodup) : mget (mdel l k) k = none := by
  induction l with
  | nil => simp [mget, mdel]
  | cons e t ih =>
    rw [mkeys_cons] at hnd
    rcases List.nodup_cons.mp hnd with ⟨hx, ht⟩
    by_cases h : e.1 = k
    · subst h
      simpa [mdel] using mget_eq_none_of_not_mem t e.1 hx
    · simp [mdel, mget, h, ih ht]

theorem mget_mdel_ne (l : List (String × β)) {k k' : String}
    (h : k' ≠ k) : mget (mdel l k) k' = mget l k' := by
  have h2 : ¬ k = k' := fun hh => h hh.symm
  induction l with
  | nil => simp [mdel]
  | cons e t ih =>
    by_cases he : e.1 = k
    · have hne : ¬ e.1 = k' := fun hh => h (hh ▸ he ▸ rfl)
      simp [mdel, mget, he, hne, h2]
    · by_cases he' : e.1 = k' <;> simp [mdel, mget, he, he', ih, h]

theorem mkeys_mset_mem (l : List (String × β)) (k : String) (v : β)
    (h : k ∈ mkeys l) : mkeys (mset l k v) = mkeys l := by
  induction l with
  | nil => cases h
  | cons e t ih =>
    by_cases he : e.1 = k
    · simp [mset, he]
    · have ht : k ∈ mkeys t := by
        rw [mkeys_cons, List.mem_cons] at h
        rcases h with h1 | h1
        · exact absurd h1.symm he
        · exact h1
      simp only [mset, if_neg he, mkeys_cons, ih ht]

theorem mkeys_mset_not_mem (l : List (String × β)) (k : String) (v : β)
    (h : k ∉ mkeys l) : mkeys (mset l k v) = mkeys l ++ [k] := by
  induction l with
  | nil => simp [mset]
  | cons e t ih =>
    rw [mkeys_cons, List.mem_cons] at h
    push_neg at h
    have he : ¬ e.1 = k := fun hh => h.1 hh.symm
    simp only [mset, if_neg he, mkeys_cons, ih h.2, List.cons_append]

theorem mkeys_mdel_sublist (l : List (String × β)) (k : String) :
    List.Sublist (mkeys (mdel l k)) (mkeys l) := by
  induction l with
  | nil => simp [mdel]
  | cons e t ih =>
    by_cases he : e.1 = k
    · simpa [mdel, he] using List.sublist_cons_self e.1 (mkeys t)
    · simpa [mdel, he] using ih.cons₂ e.1

theorem mem_mkeys_mdel (l : List (String × β)) {k k' : String}
    (h : k' ∈ mkeys (mdel l k)) : k' ∈ mkeys l :=
  List.Sublist.mem h (mkeys_mdel_sublist l k)

theorem nodup_mkeys_mdel (l : List (String × β)) (k : String)
    (h : (mkeys l).Nodup) : (mkeys (mdel l k)).Nodup :=
  List.Nodup.sublist (mkeys_mdel_sublist l k) h

theorem not_mem_mkeys_mdel_self (l : List (String × β)) (k : String)
    (hnd : (mkeys l).Nodup) : k ∉ mkeys (mdel l k) := by
  intro hm
  have := (mem_mkeys_iff_mget _ _).mp hm
  simp [mget_mdel_self l k hnd] at this

theorem length_mdel_of_mem (l : List (String × β)) (k : String)
    (h : k ∈ mkeys l) : (mdel l k).length + 1 = l.length := by
  induction l with
  | nil => cases h
  | cons e t ih =>
    by_cases he : e.1 = k
    · simp [mdel, he]
    · have ht : k ∈ mkeys t := by
        rw [mkeys_cons, List.mem_cons] at h
        rcases h with h1 | h1
        · exact absurd h1.symm he
        · exact h1
      have := ih ht
      simp only [mdel, if_neg he, List.length_cons]
      omega

theorem mdel_of_not_mem (l : List (String × β)) (k : String)
    (h : k ∉ mkeys l) : mdel l k = l := by
  induction l with
  | nil => rfl
  | cons e t ih =>
    rw [mkeys_cons, List.mem_cons] at h
    push_neg at h
    have he : ¬ e.1 = k := fun hh => h.1 hh.symm
    simp only [mdel, if_neg he]
    rw [ih h.2]

theorem length_mset_of_mem (l : List (String × β)) (k : String) (v : β)
    (h : k ∈ mkeys l) : (mset l k v).length = l.length := by
  induction l with
  | nil => cases h
  | cons e t ih =>
    by_cases he : e.1 = k
    · simp [mset, he]
    · have ht : k ∈ mkeys t := by
        rw [mkeys_cons, List.mem_cons] at h
        rcases h with h1 | h1
        · exact absurd h1.symm he
        · exact h1
      simp [mset, he, ih ht]

theorem length_mset_of_not_mem (l : List (String × β)) (k : String) (v : β)
    (h : k ∉ mkeys l) : (mset l k v).length = l.length + 1 := by
  induction l with
  | nil => simp [mset]
  | cons e t ih =>
    rw [mkeys_cons, List.mem_cons] at h
    push_neg at h
    have he : ¬ e.1 = k := fun hh => h.1 hh.symm
    simp [mset, he, ih h.2]

theorem mem_eraseFirst (l : List String) {k k' : String}
    (h : k' ∈ eraseFirst l k) : k' ∈ l := by
  induction l with
  | nil => cases h
  | cons x t ih =>
    by_cases hx : x = k
    · simp only [eraseFirst, if_pos hx] at h
      exact List.mem_cons_of_mem x h
    · simp only [eraseFirst, if_neg hx] at h
      rcases List.mem_cons.mp h with h1 | h1
      · exact List.mem_cons.mpr (Or.inl h1)
      · exact List.mem_cons_of_mem x (ih h1)

theorem eraseFirst_sublist (l : List String) (k : String) :
    List.Sublist (eraseFirst l k) l := by
  induction l with
  | nil => simp [eraseFirst]
  | cons x t ih =>
    by_cases hx : x = k
    · simpa [eraseFirst, hx] using List.sublist_cons_self x t
    · simpa [eraseFirst, hx] using ih.cons₂ x

theorem nodup_eraseFirst (l : List String) (k : String)
    (h : l.Nodup) : (eraseFirst l k).Nodup :=
  List.Nodup.sublist (eraseFirst_sublist l k) h

theorem not_mem_eraseFirst_self (l : List String) (k : String)
    (hnd : l.Nodup) : k ∉ eraseFirst l k := by
  induction l with
  | nil => simp [eraseFirst]
  | cons x t ih =>
    rcases List.nodup_cons.mp hnd with ⟨hx, ht⟩
    by_cases h : x = k
    · subst h
      simpa [eraseFirst] using hx
    · simp only [eraseFirst, if_neg h]
      intro hm
      rcases List.mem_cons.mp hm with h1 | h1
      · exact h h1.symm
      · exact ih ht h1

theorem mem_eraseFirst_of_ne (l : List String) {k k' : String}
    (hne : k' ≠ k) (h : k' ∈ l) : k' ∈ eraseFirst l k := by
  induction l with
  | nil => cases h
  | cons x t ih =>
    by_cases hx : x = k
    · simp only [eraseFirst, if_pos hx]
      rcases List.mem_cons.mp h with h1 | h1
      · exact absurd (h1.trans hx) hne
      · exact h1
    · simp only [eraseFirst, if_neg hx]
      rcases List.mem_cons.mp h with h1 | h1
      · exact List.mem_cons.mpr (Or.inl h1)
      · exact List.mem_cons_of_mem x (ih h1)

end MapLemmas

/-! ### Symmetric pair maps: the shape of `peers` / `activePairs`.

Both variants store a session as two mutually inverse entries.  `PSym`
packages the mutual-and-distinct property; unlinking is the double delete
both variants use, linking the double set. -/

/-- The pairing map is symmetric and irreflexive. -/
def PSym (pm : List (String × String)) : Prop :=
  ∀ a b, mget pm a = some b → mget pm b = some a ∧ a ≠ b

theorem PSym.inj {pm : List (String × String)} (h : PSym pm) :
    ∀ a b c, mget pm a = some c → mget pm b = some c → a = b := by
  intro a b c ha hb
  have h1 := (h a c ha).1
  have h2 := (h b c hb).1
  exact Option.some.inj (h1.symm.trans h2)

section Unlink

variable {pm : List (String × String)} {a b : String}

theorem mget_unlink_fst (hsym : PSym pm) (hnd : (mkeys pm).Nodup)
    (hab : mget pm a = some b) : mget (mdel (mdel pm a) b) a = none := by
  rw [mget_mdel_ne (mdel pm a) (hsym a b hab).2, mget_mdel_self pm a hnd]

theorem mget_unlink_snd (hnd : (mkeys pm).Nodup) :
    mget (mdel (mdel pm a) b) b = none :=
  mget_mdel_self _ b (nodup_mkeys_mdel pm a hnd)

theorem mget_unlink_other {c : String} (hca : c ≠ a) (hcb : c ≠ b) :
    mget (mdel (mdel pm a) b) c = mget pm c := by
  rw [mget_mdel_ne _ hcb, mget_mdel_ne _ hca]

theorem psym_unlink (hsym : PSym pm) (hnd : (mkeys pm).Nodup)
    (hab : mget pm a = some b) : PSym (mdel (mdel pm a) b) := by
  intro c d hcd
  have hca : c ≠ a := by
    intro h
    rw [h, mget_unlink_fst hsym hnd hab] at hcd
    cases hcd
  have hcb : c ≠ b := by
    intro h
    rw [h, mget_unlink_snd hnd] at hcd
    cases hcd
  rw [mget_unlink_other hca hcb] at hcd
  have hsc := hsym c d hcd
  have hda : d ≠ a := by
    intro h
    rw [h] at hcd
    have := hsym c a hcd
    rw [hab] at this
    exact hcb (Option.some.injEq _ _ ▸ this.1).symm
  have hdb : d ≠ b := by
    intro h
    rw [h] at hcd
    have hbc := (hsym c b hcd).1
    have hba := (hsym a b hab).1
    rw [hba] at hbc
    exact hca (Option.some.injEq _ _ ▸ hbc).symm
  refine ⟨?_, hsc.2⟩
  rw [mget_unlink_other hda hdb]
  exact hsc.1

theorem length_unlink (hsym : PSym pm) (hnd : (mkeys pm).Nodup)
    (hab : mget pm a = some b) :
    (mdel (mdel pm a) b).length + 2 = pm.length := by
  have hamem : a ∈ mkeys pm := mem_mkeys_of_mget_some pm hab
  have hbmem : b ∈ mkeys (mdel pm a) := by
    apply mem_mkeys_of_mget_some (v := a)
    rw [mget_mdel_ne _ (hsym a b hab).2.symm]
    exact (hsym a b hab).1
  have h1 := length_mdel_of_mem pm a hamem
  have h2 := length_mdel_of_mem (mdel pm a) b hbmem
  omega

theorem mem_unlink_keys {c : String} (h : c ∈ mkeys (mdel (mdel pm a) b)) :
    c ∈ mkeys pm :=
  mem_mkeys_mdel _ (mem_mkeys_mdel _ h)

end Unlink

section Link

variable {pm : List (String × String)} {x y : String}

theorem mget_link_fst (hxy : x ≠ y) :
    mget (mset (mset pm x y) y x) x = some y := by
  rw [mget_mset_ne _ _ hxy, mget_mset_self]

theorem mget_link_snd : mget (mset (mset pm x y) y x) y = some x :=
  mget_mset_self _ y x

theorem mget_link_other {c : String} (hcx : c ≠ x) (hcy : c ≠ y) :
    mget (mset (mset pm x y) y x) c = mget pm c := by
  rw [mget_mset_ne _ _ hcy, mget_mset_ne _ _ hcx]

theorem psym_link (hsym : PSym pm) (hx : mget pm x = none)
    (hy : mget pm y = none) (hxy : x ≠ y) :
    PSym (mset (mset pm x y) y x) := by
  intro c d hcd
  by_cases hcx : c = x
  · subst hcx
    rw [mget_link_fst hxy] at hcd
    cases hcd
    exact ⟨mget_link_snd, hxy⟩
  · by_cases hcy : c = y
    · subst hcy
      rw [mget_link_snd] at hcd
      cases hcd
      exact ⟨mget_link_fst hxy, hxy.symm⟩
    · rw [mget_link_other hcx hcy] at hcd
      have hsc := hsym c d hcd
      have hdx : d ≠ x := by
        intro h
        rw [h] at hcd
        have := (hsym c x hcd).1
        rw [hx] at this
        cases this
      have hdy : d ≠ y := by
        intro h
        rw [h] at hcd
        have := (hsym c y hcd).1
        rw [hy] at this
        cases this
      refine ⟨?_, hsc.2⟩
      rw [mget_link_other hdx hdy]
      exact hsc.1

theorem mkeys_link (hx : mget pm x = none) (hy : mget pm y = none)
    (hxy : x ≠ y) :
    mkeys (mset (mset pm x y) y x) = mkeys pm ++ [x, y] := by
  have hx' : x ∉ mkeys pm := not_mem_mkeys_of_mget_none pm x hx
  have hy' : y ∉ mkeys (mset pm x y) := by
    apply not_mem_mkeys_of_mget_none
    rw [mget_mset_ne _ _ (Ne.symm hxy)]
    exact hy
  rw [mkeys_mset_not_mem _ _ _ hy', mkeys_mset_not_mem _ _ _ hx']
  simp

theorem length_link (hx : mget pm x = none) (hy : mget pm y = none)
    (hxy : x ≠ y) :
    (mset (mset pm x y) y x).length = pm.length + 2 := by
  have hx' : x ∉ mkeys pm := not_mem_mkeys_of_mget_none pm x hx
  have hy' : y ∉ mkeys (mset pm x y) := by
    apply not_mem_mkeys_of_mget_none
    rw [mget_mset_ne _ _ (Ne.symm hxy)]
    exact hy
  rw [length_mset_of_not_mem _ _ _ hy', length_mset_of_not_mem _ _ _ hx']

theorem nodup_link (hnd : (mkeys pm).Nodup) (hx : mget pm x = none)
    (hy : mget pm y = none) (hxy : x ≠ y) :
    (mkeys (mset (mset pm x y) y x)).Nodup := by
  rw [mkeys_link hx hy hxy, List.nodup_append]
  have hx' : x ∉ mkeys pm := not_mem_mkeys_of_mget_none pm x hx
  have hy' : y ∉ mkeys pm := not_mem_mkeys_of_mget_none pm y hy
  refine ⟨hnd, List.nodup_cons.mpr ⟨by simpa using hxy, List.nodup_singleton y⟩, ?_⟩
  intro c hc hc2
  rcases List.mem_cons.mp hc2 with h1 | h1
  · exact hx' (h1 ▸ hc)
  · exact hy' ((List.mem_singleton.mp h1) ▸ hc)

theorem mem_link_keys {c : String} (hc : c ∈ mkeys (mset (mset pm x y) y x))
    (hx : mget pm x = none) (hy : mget pm y = none) (hxy : x ≠ y) :
    c ∈ mkeys pm ∨ c = x ∨ c = y := by
  rw [mkeys_link hx hy hxy] at hc
  rcases List.mem_append.mp hc with h | h
  · exact Or.inl h
  · rcases List.mem_cons.mp h with h1 | h1
    · exact Or.inr (Or.inl h1)
    · simpa using Or.inr (Or.inr (List.mem_singleton.mp h1))

end Link

/-! ### Branch lemmas for the part_000 tryMatch. -/

theorem tryMatch_chatting {s : P0.MState} {id : String} {tags : List String}
    {now : Nat} (h : P0.isChatting s id) : P0.tryMatch s id tags now = (s, []) := by
  rw [P0.tryMatch]
  simp [h]

theorem tryMatch_none {s : P0.MState} {id : String} {tags : List String} {now : Nat}
    (h : ¬ P0.isChatting s id) (hc : P0.firstCandidate s id tags = none) :
    P0.tryMatch s id tags now =
      ({ s with waiting := mset s.waiting id ⟨tags, now⟩ },
       [Out.toSock id .waiting,
        Out.broadcast (.stats s.online s.chatting)]) := by
  rw [P0.tryMatch, if_neg h]
  split
  · rfl
  · rename_i c2 info2 heq
    rw [hc] at heq
    cases heq

theorem tryMatch_some {s : P0.MState} {id c : String} {info : P0.WEntry}
    {tags : List String} {now : Nat}
    (h : ¬ P0.isChatting s id) (hc : P0.firstCandidate s id tags = some (c, info))
    (hl : c ∈ s.live) :
    P0.tryMatch s id tags now =
      ({ s with waiting := mdel (mdel s.waiting c) id,
                peers := mset (mset s.peers id c) c id,
                chatting := s.chatting + 2 },
       [Out.toSock id .matched, Out.toSock c .matched,
        Out.broadcast (.stats s.online (s.chatting + 2))]) := by
  rw [P0.tryMatch, if_neg h]
  split
  · rename_i heq
    rw [hc] at heq
    cases heq
  · rename_i c2 info2 heq
    rw [hc] at heq
    injection heq with heq2
    cases heq2
    rw [if_pos hl]
    rfl

theorem tryMatch_some_dead {s : P0.MState} {id c : String} {info : P0.WEntry}
    {tags : List String} {now : Nat}
    (h : ¬ P0.isChatting s id) (hc : P0.firstCandidate s id tags = some (c, info))
    (hl : c ∉ s.live) :
    P0.tryMatch s id tags now =
      P0.tryMatch { s with waiting := mdel s.waiting c } id tags now := by
  conv_lhs => rw [P0.tryMatch]
  rw [if_neg h]
  split
  · rename_i heq
    rw [hc] at heq
    cases heq
  · rename_i c2 info2 heq
    rw [hc] at heq
    injection heq with heq2
    cases heq2
    rw [if_neg hl]

theorem mem_mkeys_of_mem {β : Type} {l : List (String × β)} {k : String} {v : β}
    (h : (k, v) ∈ l) : k ∈ mkeys l :=
  List.mem_map_of_mem Prod.fst h

/-- What the tryMatch scan guarantees about a found candidate. -/
theorem firstCandidate_spec {s : P0.MState} {id c : String} {info : P0.WEntry}
    {tags : List String} (hc : P0.firstCandidate s id tags = some (c, info)) :
    (c, info) ∈ s.waiting ∧ c ≠ id ∧ mget s.peers c = none ∧
      P0.okTags tags info.tags := by
  have hmem := List.mem_of_find?_eq_some hc
  have hp := List.find?_some hc
  simp only [Bool.and_eq_true, decide_eq_true_eq, Bool.not_eq_true'] at hp
  refine ⟨hmem, hp.1.1, ?_, hp.2⟩
  have := hp.1.2
  simp only [P0.isChatting] at this
  exact Option.not_isSome_iff_eq_none.mp (by simp [this])

/-! ### The inductive invariant of the part_000 server. -/

/-- The state invariant of the part_000 server, established for every
reachable state: registry, pool and pairing map are mutually consistent. -/
structure MInv (s : P0.MState) : Prop where
  liveNodup : s.live.Nodup
  onlineEq : s.online = s.live.length
  waitNodup : (mkeys s.waiting).Nodup
  peerNodup : (mkeys s.peers).Nodup
  waitLive : ∀ k ∈ mkeys s.waiting, k ∈ s.live
  peerLive : ∀ k ∈ mkeys s.peers, k ∈ s.live
  disj : ∀ k ∈ mkeys s.waiting, mget s.peers k = none
  sym : PSym s.peers
  chatEq : s.chatting = s.peers.length
  peerEven : Even s.peers.length

theorem endChat_minv {s : P0.MState} {id : String} {ntf : Bool} (hs : MInv s) :
    MInv (P0.endChat s id ntf).1 := by
  cases hab : mget s.peers id with
  | none => simpa [P0.endChat, hab] using hs
  | some p =>
    have hlen := length_unlink hs.sym hs.peerNodup hab
    have hev := Nat.even_iff.mp hs.peerEven
    simp only [P0.endChat, hab]
    exact {
      liveNodup := hs.liveNodup
      onlineEq := hs.onlineEq
      waitNodup := hs.waitNodup
      peerNodup := nodup_mkeys_mdel _ _ (nodup_mkeys_mdel _ _ hs.peerNodup)
      waitLive := hs.waitLive
      peerLive := fun k hk => hs.peerLive k (mem_unlink_keys hk)
      disj := fun k hk => by
        have h0 := hs.disj k hk
        exact mget_eq_none_of_not_mem _ _
          (fun hm => (not_mem_mkeys_of_mget_none _ _ h0)
            (mem_unlink_keys hm))
      sym := psym_unlink hs.sym hs.peerNodup hab
      chatEq := by
        have := hs.chatEq
        show s.chatting - 2 = (mdel (mdel s.peers id) p).length
        omega
      peerEven := by
        show Even (mdel (mdel s.peers id) p).length
        rw [Nat.even_iff]
        omega }

theorem removeFromQueue_minv {s : P0.MState} {id : String} (hs : MInv s) :
    MInv (P0.removeFromQueue s id) := by
  exact {
    liveNodup := hs.liveNodup
    onlineEq := hs.onlineEq
    waitNodup := nodup_mkeys_mdel _ _ hs.waitNodup
    peerNodup := hs.peerNodup
    waitLive := fun k hk => hs.waitLive k (mem_mkeys_mdel _ hk)
    peerLive := hs.peerLive
    disj := fun k hk => hs.disj k (mem_mkeys_mdel _ hk)
    sym := hs.sym
    chatEq := hs.chatEq
    peerEven := hs.peerEven }

/-- The state after the implicit end-of-current-chat at the top of the
find:partner handler. -/
theorem findPartner_stage1 {s : P0.MState} (id : String) (hs : MInv s) :
    ∃ s1 : P0.MState,
      (if P0.isChatting s id then P0.endChat s id true else (s, [])).1 = s1 ∧
      MInv s1 ∧ mget s1.peers id = none ∧ s1.waiting = s.waiting ∧
      s1.live = s.live ∧ s1.online = s.online ∧
      (∀ k w, mget s1.peers k = some w → mget s.peers k = some w) := by
  by_cases hch : P0.isChatting s id
  · obtain ⟨p, hp⟩ := Option.isSome_iff_exists.mp hch
    have hinv := @endChat_minv s id true hs
    refine ⟨(P0.endChat s id true).1, by rw [if_pos hch], hinv, ?_, ?_, ?_, ?_, ?_⟩
    · simp only [P0.endChat, hp]
      exact mget_unlink_fst hs.sym hs.peerNodup hp
    · simp only [P0.endChat, hp]
    · simp only [P0.endChat, hp]
    · simp only [P0.endChat, hp]
    · intro k w hk
      simp only [P0.endChat, hp] at hk
      have hka : k ≠ id := by
        intro h
        rw [h, mget_unlink_fst hs.sym hs.peerNodup hp] at hk
        cases hk
      have hkb : k ≠ p := by
        intro h
        rw [h, mget_unlink_snd hs.peerNodup] at hk
        cases hk
      rwa [mget_unlink_other hka hkb] at hk
  · have hnone : mget s.peers id = none := by
      simp only [P0.isChatting, Bool.not_eq_true] at hch
      exact Option.not_isSome_iff_eq_none.mp (by simp [hch])
    exact ⟨s, by rw [if_neg hch], hs, hnone, rfl, rfl, rfl, fun k w hk => hk⟩

theorem findPartner_minv {s : P0.MState} {id : String} {now : Nat}
    {raw : Option (List JVal)} (hs : MInv s) (hid : id ∈ s.live) :
    MInv (P0.findPartner s id now raw).1 := by
  obtain ⟨s1, hs1eq, hs1, hid1, hw1, hl1, ho1, hpk1⟩ := findPartner_stage1 id hs
  have hgoal : (P0.findPartner s id now raw).1 =
      (P0.tryMatch (P0.removeFromQueue s1 id) id (P0.normalizeTags raw) now).1 := by
    simp only [P0.findPartner, hs1eq]
  rw [hgoal]
  set tags := P0.normalizeTags raw with htags
  set s2 := P0.removeFromQueue s1 id with hs2def
  have hs2 : MInv s2 := removeFromQueue_minv hs1
  have hid2 : id ∉ mkeys s2.waiting :=
    not_mem_mkeys_mdel_self s1.waiting id hs1.waitNodup
  have hidp2 : mget s2.peers id = none := hid1
  have hliv2 : s2.live = s.live := hl1
  have hid2live : id ∈ s2.live := hliv2 ▸ hid
  have hnch : ¬ P0.isChatting s2 id := by simp [P0.isChatting, hidp2]
  cases hc : P0.firstCandidate s2 id tags with
  | none =>
    rw [tryMatch_none hnch hc]
    exact {
      liveNodup := hs2.liveNodup
      onlineEq := hs2.onlineEq
      waitNodup := by
        show (mkeys (mset s2.waiting id ⟨tags, now⟩)).Nodup
        rw [mkeys_mset_not_mem _ _ _ hid2, List.nodup_append]
        exact ⟨hs2.waitNodup, List.nodup_singleton id,
          fun a ha hb => hid2 ((List.mem_singleton.mp hb) ▸ ha)⟩
      peerNodup := hs2.peerNodup
      waitLive := by
        intro k hk
        rw [mkeys_mset_not_mem _ _ _ hid2] at hk
        rcases List.mem_append.mp hk with h | h
        · exact hs2.waitLive k h
        · exact (List.mem_singleton.mp h) ▸ hid2live
      peerLive := hs2.peerLive
      disj := by
        intro k hk
        rw [mkeys_mset_not_mem _ _ _ hid2] at hk
        rcases List.mem_append.mp hk with h | h
        · exact hs2.disj k h
        · exact (List.mem_singleton.mp h) ▸ hidp2
      sym := hs2.sym
      chatEq := hs2.chatEq
      peerEven := hs2.peerEven }
  | some ci =>
    obtain ⟨c, info⟩ := ci
    obtain ⟨hmem, hcne, hcp, hok⟩ := firstCandidate_spec hc
    have hckey : c ∈ mkeys s2.waiting := mem_mkeys_of_mem hmem
    have hclive : c ∈ s2.live := hs2.waitLive c hckey
    have hidc : id ≠ c := Ne.symm hcne
    rw [tryMatch_some hnch hc hclive]
    exact {
      liveNodup := hs2.liveNodup
      onlineEq := hs2.onlineEq
      waitNodup := nodup_mkeys_mdel _ _ (nodup_mkeys_mdel _ _ hs2.waitNodup)
      peerNodup := nodup_link hs2.peerNodup hidp2 hcp hidc
      waitLive := fun k hk =>
        hs2.waitLive k (mem_mkeys_mdel _ (mem_mkeys_mdel _ hk))
      peerLive := by
        intro k hk
        rcases mem_link_keys hk hidp2 hcp hidc with h | h | h
        · exact hs2.peerLive k h
        · exact h ▸ hid2live
        · exact h ▸ hclive
      disj := by
        intro k hk
        have hkni : k ≠ id := fun h =>
          (not_mem_mkeys_mdel_self (mdel s2.waiting c) id
            (nodup_mkeys_mdel _ _ hs2.waitNodup)) (h ▸ hk)
        have hk2 : k ∈ mkeys (mdel s2.waiting c) := mem_mkeys_mdel _ hk
        have hknc : k ≠ c := fun h =>
          (not_mem_mkeys_mdel_self s2.waiting c hs2.waitNodup) (h ▸ hk2)
        rw [mget_link_other hkni hknc]
        exact hs2.disj k (mem_mkeys_mdel _ hk2)
      sym := psym_link hs2.sym hidp2 hcp hidc
      chatEq := by
        show s2.chatting + 2 = (mset (mset s2.peers id c) c id).length
        rw [length_link hidp2 hcp hidc]
        have := hs2.chatEq
        omega
      peerEven := by
        show Even (mset (mset s2.peers id c) c id).length
        rw [length_link hidp2 hcp hidc, Nat.even_iff]
        have := Nat.even_iff.mp hs2.peerEven
        omega }

/-- The message:send handler of part_000 never changes the state. -/
theorem msgSend_state (s : P0.MState) (id : String) (now : Nat) (v : JVal) :
    (P0.msgSend s id now v).1 = s := by
  simp only [P0.msgSend]
  split
  · rfl
  · split
    · rfl
    · split <;> rfl

theorem msgSend_minv {s : P0.MState} {id : String} {now : Nat} {v : JVal}
    (hs : MInv s) : MInv (P0.msgSend s id now v).1 := by
  rw [msgSend_state]
  exact hs

theorem chatEnd_minv {s : P0.MState} {id : String} (hs : MInv s) :
    MInv (P0.chatEnd s id).1 :=
  removeFromQueue_minv (endChat_minv hs)

theorem connect_minv {s : P0.MState} {id : String} (hs : MInv s)
    (hnid : id ∉ s.live) : MInv (P0.connect s id).1 := by
  exact {
    liveNodup := List.nodup_cons.mpr ⟨hnid, hs.liveNodup⟩
    onlineEq := by
      show s.online + 1 = (id :: s.live).length
      simp [hs.onlineEq]
    waitNodup := hs.waitNodup
    peerNodup := hs.peerNodup
    waitLive := fun k hk => List.mem_cons_of_mem id (hs.waitLive k hk)
    peerLive := fun k hk => List.mem_cons_of_mem id (hs.peerLive k hk)
    disj := hs.disj
    sym := hs.sym
    chatEq := hs.chatEq
    peerEven := hs.peerEven }

theorem disconnect_minv {s : P0.MState} {id : String} (hs : MInv s)
    (hid : id ∈ s.live) : MInv (P0.disconnect s id).1 := by
  have hwnd1 : (mkeys (mdel s.waiting id)).Nodup := nodup_mkeys_mdel _ _ hs.waitNodup
  have hwlive1 : ∀ k ∈ mkeys (mdel s.waiting id), k ∈ s.live.erase id := by
    intro k hk
    have hkne : k ≠ id := fun h =>
      (not_mem_mkeys_mdel_self s.waiting id hs.waitNodup) (h ▸ hk)
    exact (List.mem_erase_of_ne hkne).mpr (hs.waitLive k (mem_mkeys_mdel _ hk))
  cases hpa : mget s.peers id with
  | none =>
    have hidpk : id ∉ mkeys s.peers := not_mem_mkeys_of_mget_none _ _ hpa
    simp only [P0.disconnect, P0.removeFromQueue, P0.endChat, hpa]
    exact {
      liveNodup := hs.liveNodup.erase id
      onlineEq := by
        show s.online - 1 = (s.live.erase id).length
        rw [List.length_erase_of_mem hid, hs.onlineEq]
      waitNodup := hwnd1
      peerNodup := hs.peerNodup
      waitLive := hwlive1
      peerLive := by
        intro k hk
        have hkne : k ≠ id := fun h => hidpk (h ▸ hk)
        exact (List.mem_erase_of_ne hkne).mpr (hs.peerLive k hk)
      disj := fun k hk => hs.disj k (mem_mkeys_mdel _ hk)
      sym := hs.sym
      chatEq := hs.chatEq
      peerEven := hs.peerEven }
  | some p =>
    have hlen := length_unlink hs.sym hs.peerNodup hpa
    have hue : mget (mdel (mdel s.peers id) p) id = none :=
      mget_unlink_fst hs.sym hs.peerNodup hpa
    simp only [P0.disconnect, P0.removeFromQueue, P0.endChat, hpa]
    exact {
      liveNodup := hs.liveNodup.erase id
      onlineEq := by
        show s.online - 1 = (s.live.erase id).length
        rw [List.length_erase_of_mem hid, hs.onlineEq]
      waitNodup := hwnd1
      peerNodup := nodup_mkeys_mdel _ _ (nodup_mkeys_mdel _ _ hs.peerNodup)
      waitLive := hwlive1
      peerLive := by
        intro k hk
        have hkne : k ≠ id := fun h => (not_mem_mkeys_of_mget_none _ _ hue) (h ▸ hk)
        exact (List.mem_erase_of_ne hkne).mpr (hs.peerLive k (mem_unlink_keys hk))
      disj := by
        intro k hk
        have h0 := hs.disj k (mem_mkeys_mdel _ hk)
        exact mget_eq_none_of_not_mem _ _
          (fun hm => (not_mem_mkeys_of_mget_none _ _ h0) (mem_unlink_keys hm))
      sym := psym_unlink hs.sym hs.peerNodup hpa
      chatEq := by
        show s.chatting - 2 = (mdel (mdel s.peers id) p).length
        have := hs.chatEq
        omega
      peerEven := by
        show Even (mdel (mdel s.peers id) p).length
        rw [Nat.even_iff]
        have := Nat.even_iff.mp hs.peerEven
        omega }

/-- Every reachable state of the part_000 server satisfies the invariant. -/
theorem minv_reach {s : P0.MState} (h : MReach s) : MInv s := by
  induction h with
  | init =>
    exact {
      liveNodup := List.nodup_nil
      onlineEq := rfl
      waitNodup := List.nodup_nil
      peerNodup := List.nodup_nil
      waitLive := by intro k hk; cases hk
      peerLive := by intro k hk; cases hk
      disj := by intro k hk; cases hk
      sym := by intro a b hab; cases hab
      chatEq := rfl
      peerEven := ⟨0, rfl⟩ }
  | connect s id now _ hnid ih => exact connect_minv ih hnid
  | findPartner s id now tags _ hid ih => exact findPartner_minv ih hid
  | msgSend s id now v _ _ ih => exact msgSend_minv ih
  | chatEnd s id now _ _ ih => exact chatEnd_minv ih
  | disconnect s id now _ hid ih => exact disconnect_minv ih hid

/-! ### The inductive invariant of the server.js server. -/

/-- The state invariant of the server.js server, established for every
reachable state. -/
structure SInv (s : SJ.SState) : Prop where
  liveNodup : s.live.Nodup
  queueNodup : s.waitingQueue.Nodup
  pairNodup : (mkeys s.activePairs).Nodup
  queueLive : ∀ k ∈ s.waitingQueue, k ∈ s.live
  pairLive : ∀ k ∈ mkeys s.activePairs, k ∈ s.live
  disj : ∀ k ∈ s.waitingQueue, mget s.activePairs k = none
  sym : PSym s.activePairs
  pairEven : Even s.activePairs.length

theorem sconnect_sinv {s : SJ.SState} {id : String} (hs : SInv s)
    (hnid : id ∉ s.live) : SInv (SJ.connect s id).1 := by
  exact {
    liveNodup := List.nodup_cons.mpr ⟨hnid, hs.liveNodup⟩
    queueNodup := hs.queueNodup
    pairNodup := hs.pairNodup
    queueLive := fun k hk => List.mem_cons_of_mem id (hs.queueLive k hk)
    pairLive := fun k hk => List.mem_cons_of_mem id (hs.pairLive k hk)
    disj := hs.disj
    sym := hs.sym
    pairEven := hs.pairEven }

/-- After the old-pair teardown at the top of server.js find:partner. -/
theorem sFindPartner_stage1 {s : SJ.SState} (id : String) (hs : SInv s) :
    ∃ s1 : SJ.SState,
      (match mget s.activePairs id with
        | some oldPartner =>
          ({ s with activePairs := mdel (mdel s.activePairs oldPartner) id },
           if oldPartner ∈ s.live then [Out.toSock oldPartner .partnerLeft] else [])
        | none => (s, ([] : List Out))).1 = s1 ∧
      SInv s1 ∧ mget s1.activePairs id = none ∧
      s1.waitingQueue = s.waitingQueue ∧ s1.live = s.live ∧
      (∀ k w, mget s1.activePairs k = some w → mget s.activePairs k = some w) := by
  cases hpa : mget s.activePairs id with
  | none =>
    exact ⟨s, rfl, hs, hpa, rfl, rfl, fun k w hk => hk⟩
  | some op =>
    have hab : mget s.activePairs op = some id := (hs.sym id op hpa).1
    refine ⟨_, rfl, ?_, ?_, rfl, rfl, ?_⟩
    · exact {
        liveNodup := hs.liveNodup
        queueNodup := hs.queueNodup
        pairNodup := nodup_mkeys_mdel _ _ (nodup_mkeys_mdel _ _ hs.pairNodup)
        queueLive := hs.queueLive
        pairLive := fun k hk => hs.pairLive k (mem_unlink_keys hk)
        disj := fun k hk => mget_eq_none_of_not_mem _ _
          (fun hm => (not_mem_mkeys_of_mget_none _ _ (hs.disj k hk))
            (mem_unlink_keys hm))
        sym := psym_unlink hs.sym hs.pairNodup hab
        pairEven := by
          have := length_unlink hs.sym hs.pairNodup hab
          have hev := Nat.even_iff.mp hs.pairEven
          show Even (mdel (mdel s.activePairs op) id).length
          rw [Nat.even_iff]
          omega }
    · exact mget_unlink_snd hs.pairNodup
    · intro k w hk
      have hka : k ≠ op := by
        intro h
        rw [h, mget_unlink_fst hs.sym hs.pairNodup hab] at hk
        cases hk
      have hkb : k ≠ id := by
        intro h
        rw [h, mget_unlink_snd hs.pairNodup] at hk
        cases hk
      rwa [mget_unlink_other hka hkb] at hk

theorem sFindPartner_sinv {s : SJ.SState} {id : String} (hs : SInv s)
    (hid : id ∈ s.live) : SInv (SJ.findPartner s id).1 := by
  obtain ⟨s1, hs1eq, hs1, hid1, hq1, hl1, _⟩ := sFindPartner_stage1 id hs
  have hgoal : (SJ.findPartner s id).1 =
      (SJ.tryMatch (if id ∈ s1.waitingQueue then s1
        else { s1 with waitingQueue := s1.waitingQueue ++ [id] }) id).1 := by
    simp only [SJ.findPartner, hs1eq]
  rw [hgoal]
  have hid1live : id ∈ s1.live := hl1 ▸ hid
  -- the invariant and key facts hold for the enqueued state s2
  have hstage2 : ∀ s2 : SJ.SState,
      (if id ∈ s1.waitingQueue then s1
        else { s1 with waitingQueue := s1.waitingQueue ++ [id] }) = s2 →
      SInv s2 ∧ mget s2.activePairs id = none ∧ s2.live = s1.live := by
    intro s2 h2
    by_cases hin : id ∈ s1.waitingQueue
    · rw [if_pos hin] at h2
      exact h2 ▸ ⟨hs1, hid1, rfl⟩
    · rw [if_neg hin] at h2
      subst h2
      refine ⟨?_, hid1, rfl⟩
      exact {
        liveNodup := hs1.liveNodup
        queueNodup := by
          show (s1.waitingQueue ++ [id]).Nodup
          rw [List.nodup_append]
          exact ⟨hs1.queueNodup, List.nodup_singleton id,
            fun a ha hb => hin ((List.mem_singleton.mp hb) ▸ ha)⟩
        pairNodup := hs1.pairNodup
        queueLive := by
          intro k hk
          rcases List.mem_append.mp hk with h | h
          · exact hs1.queueLive k h
          · exact (List.mem_singleton.mp h) ▸ hid1live
        pairLive := hs1.pairLive
        disj := by
          intro k hk
          rcases List.mem_append.mp hk with h | h
          · exact hs1.disj k h
          · exact (List.mem_singleton.mp h) ▸ hid1
        sym := hs1.sym
        pairEven := hs1.pairEven }
  obtain ⟨hs2, hid2, hl2⟩ := hstage2 _ rfl
  set s2 := (if id ∈ s1.waitingQueue then s1
    else { s1 with waitingQueue := s1.waitingQueue ++ [id] }) with hs2def
  cases hf : s2.waitingQueue.find? (fun i => decide (i ≠ id)) with
  | none =>
    simp only [SJ.tryMatch, hf]
    exact hs2
  | some pid =>
    have hpmem : pid ∈ s2.waitingQueue := List.mem_of_find?_eq_some hf
    have hpne : pid ≠ id := by
      have := List.find?_some hf
      simpa using this
    have hpp : mget s2.activePairs pid = none := hs2.disj pid hpmem
    have hidp : id ≠ pid := Ne.symm hpne
    simp only [SJ.tryMatch, hf]
    exact {
      liveNodup := hs2.liveNodup
      queueNodup := nodup_eraseFirst _ _ (nodup_eraseFirst _ _ hs2.queueNodup)
      pairNodup := nodup_link hs2.pairNodup hid2 hpp hidp
      queueLive := fun k hk =>
        hs2.queueLive k (mem_eraseFirst _ (mem_eraseFirst _ hk))
      pairLive := by
        intro k hk
        rcases mem_link_keys hk hid2 hpp hidp with h | h | h
        · exact hs2.pairLive k h
        · rw [h, hl2]
          exact hid1live
        · rw [h]
          exact hs2.queueLive pid hpmem
      disj := by
        intro k hk
        have hknid : k ≠ id := fun h =>
          (not_mem_eraseFirst_self (eraseFirst s2.waitingQueue pid) id
            (nodup_eraseFirst _ _ hs2.queueNodup)) (h ▸ hk)
        have hk2 : k ∈ eraseFirst s2.waitingQueue pid := mem_eraseFirst _ hk
        have hknp : k ≠ pid := fun h =>
          (not_mem_eraseFirst_self s2.waitingQueue pid hs2.queueNodup) (h ▸ hk2)
        rw [mget_link_other hknid hknp]
        exact hs2.disj k (mem_eraseFirst _ hk2)
      sym := psym_link hs2.sym hid2 hpp hidp
      pairEven := by
        show Even (mset (mset s2.activePairs id pid) pid id).length
        rw [length_link hid2 hpp hidp, Nat.even_iff]
        have := Nat.even_iff.mp hs2.pairEven
        omega }

/-- The message:send handler of server.js changes at most the msgCount map. -/
theorem sMsgSend_fields (s : SJ.SState) (id : String) (now : Nat) (v : JVal) :
    ∃ mc, (SJ.msgSend s id now v).1 = { s with msgCount := mc } := by
  simp only [SJ.msgSend]
  split
  · exact ⟨s.msgCount, rfl⟩
  · split
    · exact ⟨s.msgCount, rfl⟩
    · split
      · exact ⟨_, rfl⟩
      · split
        · exact ⟨_, rfl⟩
        · split <;> exact ⟨_, rfl⟩

theorem sMsgSend_sinv {s : SJ.SState} {id : String} {now : Nat} {v : JVal}
    (hs : SInv s) : SInv (SJ.msgSend s id now v).1 := by
  obtain ⟨mc, hmc⟩ := sMsgSend_fields s id now v
  rw [hmc]
  exact {
    liveNodup := hs.liveNodup
    queueNodup := hs.queueNodup
    pairNodup := hs.pairNodup
    queueLive := hs.queueLive
    pairLive := hs.pairLive
    disj := hs.disj
    sym := hs.sym
    pairEven := hs.pairEven }

theorem sChatEnd_sinv {s : SJ.SState} {id : String} (hs : SInv s) :
    SInv (SJ.chatEnd s id).1 := by
  cases hpa : mget s.activePairs id with
  | none =>
    have : mdel s.activePairs id = s.activePairs :=
      mdel_of_not_mem _ _ (not_mem_mkeys_of_mget_none _ _ hpa)
    simp only [SJ.chatEnd, hpa, this]
    exact {
      liveNodup := hs.liveNodup
      queueNodup := hs.queueNodup
      pairNodup := hs.pairNodup
      queueLive := hs.queueLive
      pairLive := hs.pairLive
      disj := hs.disj
      sym := hs.sym
      pairEven := hs.pairEven }
  | some p =>
    have hab : mget s.activePairs p = some id := (hs.sym id p hpa).1
    simp only [SJ.chatEnd, hpa]
    exact {
      liveNodup := hs.liveNodup
      queueNodup := hs.queueNodup
      pairNodup := nodup_mkeys_mdel _ _ (nodup_mkeys_mdel _ _ hs.pairNodup)
      queueLive := hs.queueLive
      pairLive := fun k hk => hs.pairLive k (mem_unlink_keys hk)
      disj := fun k hk => mget_eq_none_of_not_mem _ _
        (fun hm => (not_mem_mkeys_of_mget_none _ _ (hs.disj k hk))
          (mem_unlink_keys hm))
      sym := psym_unlink hs.sym hs.pairNodup hab
      pairEven := by
        have := length_unlink hs.sym hs.pairNodup hab
        have hev := Nat.even_iff.mp hs.pairEven
        show Even (mdel (mdel s.activePairs p) id).length
        rw [Nat.even_iff]
        omega }

theorem sDisconnect_sinv {s : SJ.SState} {id : String} (hs : SInv s)
    (hid : id ∈ s.live) : SInv (SJ.disconnect s id).1 := by
  have hqnd : (eraseFirst s.waitingQueue id).Nodup :=
    nodup_eraseFirst _ _ hs.queueNodup
  have hqlive : ∀ k ∈ eraseFirst s.waitingQueue id, k ∈ s.live.erase id := by
    intro k hk
    have hkne : k ≠ id := fun h =>
      (not_mem_eraseFirst_self s.waitingQueue id hs.queueNodup) (h ▸ hk)
    exact (List.mem_erase_of_ne hkne).mpr (hs.queueLive k (mem_eraseFirst _ hk))
  cases hpa : mget s.activePairs id with
  | none =>
    have hidpk : id ∉ mkeys s.activePairs := not_mem_mkeys_of_mget_none _ _ hpa
    have hmd : mdel s.activePairs id = s.activePairs := mdel_of_not_mem _ _ hidpk
    simp only [SJ.disconnect, SJ.cleanupUser, hpa, hmd]
    exact {
      liveNodup := hs.liveNodup.erase id
      queueNodup := hqnd
      pairNodup := hs.pairNodup
      queueLive := hqlive
      pairLive := by
        intro k hk
        have hkne : k ≠ id := fun h => hidpk (h ▸ hk)
        exact (List.mem_erase_of_ne hkne).mpr (hs.pairLive k hk)
      disj := fun k hk => hs.disj k (mem_eraseFirst _ hk)
      sym := hs.sym
      pairEven := hs.pairEven }
  | some p =>
    have hab : mget s.activePairs p = some id := (hs.sym id p hpa).1
    have hue : mget (mdel (mdel s.activePairs p) id) id = none :=
      mget_unlink_snd hs.pairNodup
    simp only [SJ.disconnect, SJ.cleanupUser, hpa]
    exact {
      liveNodup := hs.liveNodup.erase id
      queueNodup := hqnd
      pairNodup := nodup_mkeys_mdel _ _ (nodup_mkeys_mdel _ _ hs.pairNodup)
      queueLive := hqlive
      pairLive := by
        intro k hk
        have hkne : k ≠ id := fun h => (not_mem_mkeys_of_mget_none _ _ hue) (h ▸ hk)
        exact (List.mem_erase_of_ne hkne).mpr (hs.pairLive k (mem_unlink_keys hk))
      disj := fun k hk => mget_eq_none_of_not_mem _ _
        (fun hm => (not_mem_mkeys_of_mget_none _ _
          (hs.disj k (mem_eraseFirst _ hk))) (mem_unlink_keys hm))
      sym := psym_unlink hs.sym hs.pairNodup hab
      pairEven := by
        have := length_unlink hs.sym hs.pairNodup hab
        have hev := Nat.even_iff.mp hs.pairEven
        show Even (mdel (mdel s.activePairs p) id).length
        rw [Nat.even_iff]
        omega }

/-- Every reachable state of the server.js server satisfies the invariant. -/
theorem sinv_reach {s : SJ.SState} (h : SReach s) : SInv s := by
  induction h with
  | init =>
    exact {
      liveNodup := List.nodup_nil
      queueNodup := List.nodup_nil
      pairNodup := List.nodup_nil
      queueLive := by intro k hk; cases hk
      pairLive := by intro k hk; cases hk
      disj := by intro k hk; cases hk
      sym := by intro a b hab; cases hab
      pairEven := ⟨0, rfl⟩ }
  | connect s id now _ hnid ih => exact sconnect_sinv ih hnid
  | findPartner s id now tags _ hid ih => exact sFindPartner_sinv ih hid
  | msgSend s id now v _ _ ih => exact sMsgSend_sinv ih
  | chatEnd s id now _ _ ih => exact sChatEnd_sinv ih
  | disconnect s id now _ hid ih => exact sDisconnect_sinv ih hid

/-! ### Evaluation lemmas for concrete find:partner steps (part_000). -/

theorem findPartner_eval_none {s s2 : P0.MState} {id : String} {now : Nat}
    {raw : Option (List JVal)}
    (h2 : P0.removeFromQueue
      (if P0.isChatting s id then P0.endChat s id true else (s, [])).1 id = s2)
    (hnc : ¬ P0.isChatting s2 id)
    (hfc : P0.firstCandidate s2 id (P0.normalizeTags raw) = none) :
    P0.step s id now (.findPartner raw) =
      ({ s2 with waiting := mset s2.waiting id ⟨P0.normalizeTags raw, now⟩ },
       (if P0.isChatting s id then P0.endChat s id true else (s, [])).2 ++
       [Out.toSock id .waiting,
        Out.broadcast (.stats s2.online s2.chatting)]) := by
  show P0.findPartner s id now raw = _
  simp only [P0.findPartner, h2, tryMatch_none hnc hfc]

theorem findPartner_eval_some {s s2 : P0.MState} {id c : String} {info : P0.WEntry}
    {now : Nat} {raw : Option (List JVal)}
    (h2 : P0.removeFromQueue
      (if P0.isChatting s id then P0.endChat s id true else (s, [])).1 id = s2)
    (hnc : ¬ P0.isChatting s2 id)
    (hfc : P0.firstCandidate s2 id (P0.normalizeTags raw) = some (c, info))
    (hl : c ∈ s2.live) :
    P0.step s id now (.findPartner raw) =
      ({ s2 with waiting := mdel (mdel s2.waiting c) id,
                 peers := mset (mset s2.peers id c) c id,
                 chatting := s2.chatting + 2 },
       (if P0.isChatting s id then P0.endChat s id true else (s, [])).2 ++
       [Out.toSock id .matched, Out.toSock c .matched,
        Out.broadcast (.stats s2.online (s2.chatting + 2))]) := by
  show P0.findPartner s id now raw = _
  simp only [P0.findPartner, h2, tryMatch_some hnc hfc hl]

/-! ### Concrete reachable states used as witnesses. -/

/-- part_000: one connected socket. -/
def mA : P0.MState := ⟨1, 0, [], [], ["a"]⟩

/-- part_000: two connected sockets. -/
def mB : P0.MState := ⟨2, 0, [], [], ["b", "a"]⟩

/-- part_000: socket a waiting (no tags). -/
def mC : P0.MState := ⟨2, 0, [("a", ⟨[], 0⟩)], [], ["b", "a"]⟩

/-- part_000: a and b paired. -/
def mD : P0.MState := ⟨2, 2, [], [("b", "a"), ("a", "b")], ["b", "a"]⟩

theorem mC_eq : (P0.step mB "a" 0 (.findPartner none)).1 = mC := by
  rw [@findPartner_eval_none mB mB "a" 0 none (by decide) (by decide) (by decide)]
  decide

theorem mD_eq : (P0.step mC "b" 1 (.findPartner none)).1 = mD := by
  rw [@findPartner_eval_some mC mC "b" "a" ⟨[], 0⟩ 1 none
    (by decide) (by decide) (by decide) (by decide)]
  decide

theorem mReach_mA : MReach mA := by
  have h : (P0.step P0.initState "a" 0 .connect).1 = mA := rfl
  exact h ▸ MReach.connect _ "a" 0 MReach.init (by decide)

theorem mReach_mB : MReach mB := by
  have h : (P0.step mA "b" 0 .connect).1 = mB := rfl
  exact h ▸ MReach.connect _ "b" 0 mReach_mA (by decide)

theorem mReach_mC : MReach mC :=
  mC_eq ▸ MReach.findPartner _ "a" 0 none mReach_mB (by decide)

theorem mReach_mD : MReach mD :=
  mD_eq ▸ MReach.findPartner _ "b" 1 none mReach_mC (by decide)

/-- server.js: one connected socket. -/
def sA : SJ.SState := ⟨[], [], [], ["a"]⟩

/-- server.js: two connected sockets. -/
def sB : SJ.SState := ⟨[], [], [], ["b", "a"]⟩

/-- server.js: socket a waiting. -/
def sC : SJ.SState := ⟨["a"], [], [], ["b", "a"]⟩

/-- server.js: a and b paired. -/
def sD : SJ.SState := ⟨[], [("b", "a"), ("a", "b")], [], ["b", "a"]⟩

theorem sReach_sA : SReach sA := by
  have h : (SJ.step SJ.initState "a" 0 .connect).1 = sA := rfl
  exact h ▸ SReach.connect _ "a" 0 SReach.init (by decide)

theorem sReach_sB : SReach sB := by
  have h : (SJ.step sA "b" 0 .connect).1 = sB := rfl
  exact h ▸ SReach.connect _ "b" 0 sReach_sA (by decide)

theorem sReach_sC : SReach sC := by
  have h : (SJ.step sB "a" 0 (.findPartner none)).1 = sC := by decide
  exact h ▸ SReach.findPartner _ "a" 0 none sReach_sB (by decide)

theorem sReach_sD : SReach sD := by
  have h : (SJ.step sC "b" 1 (.findPartner none)).1 = sD := by decide
  exact h ▸ SReach.findPartner _ "b" 1 none sReach_sC (by decide)

/-- server.js: the lone socket a after n well-formed message attempts at
time 0 in the current rate window (no partner). -/
def sMsgN (n : Nat) : SJ.SState := ⟨[], [], [("a", ⟨n, 60000⟩)], ["a"]⟩

theorem sMsgN_step (n : Nat) :
    SJ.step (sMsgN n) "a" 0 (.msgSend (.jstr "hi")) =
      (sMsgN (n + 1),
       if n + 1 ≤ 60 then [Out.toSock "a" .errNoPartner]
       else [Out.toSock "a" .errRatelimit]) := by
  have hclean : jsTake (jsTrim "hi") SJ.MAX_MSG_LEN = "hi" := by decide
  simp only [SJ.step, SJ.msgSend, SJ.checkMsgRate, jIsString, hclean, sMsgN,
    mget, mset, SJ.MAX_MSGS_MIN]
  by_cases h : n + 1 ≤ 60
  · simp [h, mget, mset]
  · simp [h, mget, mset]

theorem sReach_sMsgN : ∀ n, 1 ≤ n → SReach (sMsgN n) := by
  intro n hn
  induction n with
  | zero => omega
  | succ m ih =>
    by_cases hm : 1 ≤ m
    · have hr := ih hm
      have := SReach.msgSend (sMsgN m) "a" 0 (.jstr "hi") hr (by simp [sMsgN])
      rwa [sMsgN_step m] at this
    · have hm0 : m = 0 := by omega
      subst hm0
      have h : (SJ.step sA "a" 0 (.msgSend (.jstr "hi"))).1 = sMsgN 1 := by decide
      exact h ▸ SReach.msgSend sA "a" 0 (.jstr "hi") sReach_sA (by decide)

/-- server.js: a paired with b, with n messages counted in a's current rate
window (which resets at time r). -/
def sP (n r : Nat) : SJ.SState :=
  ⟨[], [("b", "a"), ("a", "b")], [("a", ⟨n, r⟩)], ["b", "a"]⟩

theorem sP_step_inwin (n : Nat) (h : n + 1 ≤ 60) :
    SJ.step (sP n 60000) "a" 1 (.msgSend (.jstr "hi")) =
      (sP (n + 1) 60000, [Out.toSock "b" (.msgReceive "hi" 1)]) := by
  have hclean : jsTake (jsTrim "hi") SJ.MAX_MSG_LEN = "hi" := by decide
  simp only [SJ.step, SJ.msgSend, SJ.checkMsgRate, jIsString, hclean, sP,
    mget, mset, SJ.MAX_MSGS_MIN]
  simp [h, mget, mset]

theorem sReach_sP : ∀ n, 1 ≤ n → n ≤ 60 → SReach (sP n 60000) := by
  intro n hn hub
  induction n with
  | zero => omega
  | succ m ih =>
    by_cases hm : 1 ≤ m
    · have hr := ih hm (by omega)
      have := SReach.msgSend (sP m 60000) "a" 1 (.jstr "hi") hr (by simp [sP])
      rwa [sP_step_inwin m (by omega)] at this
    · have hm0 : m = 0 := by omega
      subst hm0
      have h : (SJ.step sD "a" 0 (.msgSend (.jstr "hi"))).1 = sP 1 60000 := by decide
      exact h ▸ SReach.msgSend sD "a" 0 (.jstr "hi") sReach_sD (by decide)

/-! ### The spec-side eligibility rule and the find:partner characterization. -/

/-- Modelled from the spec: a candidate is eligible iff the requester has no
tags, or the candidate has no tags, or the two tag sets have a non-empty
intersection under exact string equality.  Stated separately from the code's
`okTags` so the two can be compared. -/
def eligibleSpec (reqTags candTags : List String) : Bool :=
  reqTags.isEmpty || candTags.isEmpty ||
    candTags.any fun t => reqTags.contains t

/-- The code's eligibility disjunction coincides with the spec's rule. -/
theorem okTags_eq_eligibleSpec (a b : List String) :
    P0.okTags a b = eligibleSpec a b := by
  simp only [P0.okTags, eligibleSpec, P0.haveCommonTag]
  cases ha : a.isEmpty <;> cases hb : b.isEmpty <;> simp [ha, hb]

theorem find?_congr_mem {α : Type} {p q : α → Bool} :
    ∀ (l : List α), (∀ x ∈ l, p x = q x) → l.find? p = l.find? q := by
  intro l h
  induction l with
  | nil => rfl
  | cons a t ih =>
    have ha := h a (List.mem_cons_self a t)
    simp only [List.find?]
    rw [ha]
    cases hqa : q a with
    | true => rfl
    | false => exact ih fun x hx => h x (List.mem_cons_of_mem a hx)

/-- Under the invariant, the tryMatch scan is exactly the first entry of the
pool (minus the requester) passing the spec's tag rule. -/
theorem firstCandidate_eq_spec {s2 : P0.MState} {id : String}
    {tags : List String} (hs2 : MInv s2) :
    P0.firstCandidate s2 id tags =
      s2.waiting.find? fun e => decide (e.1 ≠ id) && eligibleSpec tags e.2.tags := by
  apply find?_congr_mem
  intro e he
  have hk : e.1 ∈ mkeys s2.waiting := mem_mkeys_of_mem (by
    have : e = (e.1, e.2) := rfl
    rw [← this]
    exact he)
  have hnc : mget s2.peers e.1 = none := hs2.disj e.1 hk
  simp [P0.isChatting, hnc, okTags_eq_eligibleSpec]

/-- Full characterization of a find:partner step of part_000 on a reachable
state: the first spec-eligible pool entry other than the requester is paired
with it (both directions, `matched` emitted to both); with no eligible entry
the requester is enqueued with its normalized tags and `waiting` emitted. -/
theorem findPartner_char {s : P0.MState} {id : String} {now : Nat}
    {raw : Option (List JVal)} (hs : MInv s) (hid : id ∈ s.live) :
    (match (mdel s.waiting id).find?
        (fun e => decide (e.1 ≠ id) &&
          eligibleSpec (P0.normalizeTags raw) e.2.tags) with
     | some (c, _) =>
        mget (P0.step s id now (.findPartner raw)).1.peers id = some c ∧
        mget (P0.step s id now (.findPartner raw)).1.peers c = some id ∧
        Out.toSock id .matched ∈ (P0.step s id now (.findPartner raw)).2 ∧
        Out.toSock c .matched ∈ (P0.step s id now (.findPartner raw)).2
     | none =>
        mget (P0.step s id now (.findPartner raw)).1.waiting id =
          some ⟨P0.normalizeTags raw, now⟩ ∧
        Out.toSock id .waiting ∈ (P0.step s id now (.findPartner raw)).2) := by
  obtain ⟨s1, hs1eq, hs1, hid1, hw1, hl1, ho1, hpk1⟩ := findPartner_stage1 id hs
  have hs2eq : P0.removeFromQueue
      (if P0.isChatting s id then P0.endChat s id true else (s, [])).1 id =
      P0.removeFromQueue s1 id := by rw [hs1eq]
  set s2 := P0.removeFromQueue s1 id with hs2def
  have hs2 : MInv s2 := removeFromQueue_minv hs1
  have hw2 : s2.waiting = mdel s.waiting id := by
    show mdel s1.waiting id = mdel s.waiting id
    rw [hw1]
  have hidp2 : mget s2.peers id = none := hid1
  have hnch : ¬ P0.isChatting s2 id := by simp [P0.isChatting, hidp2]
  have hscan : P0.firstCandidate s2 id (P0.normalizeTags raw) =
      (mdel s.waiting id).find?
        (fun e => decide (e.1 ≠ id) &&
          eligibleSpec (P0.normalizeTags raw) e.2.tags) := by
    rw [firstCandidate_eq_spec hs2, hw2]
  cases hf : (mdel s.waiting id).find?
      (fun e => decide (e.1 ≠ id) &&
        eligibleSpec (P0.normalizeTags raw) e.2.tags) with
  | none =>
    have hfc : P0.firstCandidate s2 id (P0.normalizeTags raw) = none :=
      hscan.trans hf
    rw [findPartner_eval_none hs2eq hnch hfc]
    exact ⟨mget_mset_self _ _ _, by simp⟩
  | some ci =>
    obtain ⟨c, info⟩ := ci
    have hfc : P0.firstCandidate s2 id (P0.normalizeTags raw) = some (c, info) :=
      hscan.trans hf
    obtain ⟨hmem, hcne, hcp, _⟩ := firstCandidate_spec hfc
    have hclive : c ∈ s2.live := hs2.waitLive c (mem_mkeys_of_mem hmem)
    rw [findPartner_eval_some hs2eq hnch hfc hclive]
    refine ⟨?_, ?_, by simp, by simp⟩
    · exact mget_link_fst (Ne.symm hcne)
    · exact mget_link_snd

/-! ### Soundness of the retrying tryMatch (part_000). -/

/-- tryMatch never fails the requester: starting not-chatting, it either
pairs the requester with a live candidate and emits `matched`, or enqueues
the requester and emits `waiting`; in particular the requester is never
paired with a dead connection.  Proved by induction on the pool size, which
the stale-candidate retry strictly decreases. -/
theorem tryMatch_sound :
    ∀ (n : Nat) (s : P0.MState) (id : String) (tags : List String) (now : Nat),
    s.waiting.length ≤ n → mget s.peers id = none →
    (∃ c, c ∈ s.live ∧ mget (P0.tryMatch s id tags now).1.peers id = some c ∧
      Out.toSock id .matched ∈ (P0.tryMatch s id tags now).2) ∨
    (mget (P0.tryMatch s id tags now).1.waiting id = some ⟨tags, now⟩ ∧
      Out.toSock id .waiting ∈ (P0.tryMatch s id tags now).2 ∧
      mget (P0.tryMatch s id tags now).1.peers id = none) := by
  intro n
  induction n with
  | zero =>
    intro s id tags now hlen hnc
    have hncb : ¬ P0.isChatting s id := by simp [P0.isChatting, hnc]
    have hw : s.waiting = [] := List.length_eq_zero.mp (Nat.le_zero.mp hlen)
    have hfc : P0.firstCandidate s id tags = none := by
      simp [P0.firstCandidate, hw]
    rw [tryMatch_none hncb hfc]
    exact Or.inr ⟨mget_mset_self _ _ _, by simp, hnc⟩
  | succ m ih =>
    intro s id tags now hlen hnc
    have hncb : ¬ P0.isChatting s id := by simp [P0.isChatting, hnc]
    cases hc : P0.firstCandidate s id tags with
    | none =>
      rw [tryMatch_none hncb hc]
      exact Or.inr ⟨mget_mset_self _ _ _, by simp, hnc⟩
    | some ci =>
      obtain ⟨c, info⟩ := ci
      obtain ⟨hmem, hcne, hcp, _⟩ := firstCandidate_spec hc
      by_cases hl : c ∈ s.live
      · rw [tryMatch_some hncb hc hl]
        exact Or.inl ⟨c, hl, mget_link_fst (Ne.symm hcne), by simp⟩
      · rw [tryMatch_some_dead hncb hc hl]
        have hck : c ∈ mkeys s.waiting := mem_mkeys_of_mem hmem
        have hlen' : (mdel s.waiting c).length ≤ m := by
          have := length_mdel_of_mem s.waiting c hck
          omega
        exact ih { s with waiting := mdel s.waiting c } id tags now hlen' hnc

theorem find?_append_singleton_false {α : Type} {p : α → Bool} {x : α}
    (h : p x = false) : ∀ (l : List α), (l ++ [x]).find? p = l.find? p := by
  intro l
  induction l with
  | nil => simp [List.find?, h]
  | cons a t ih =>
    simp only [List.cons_append, List.find?]
    cases hpa : p a with
    | true => rfl
    | false => exact ih

/-- Full characterization of a find:partner step of server.js on a
reachable state: the requester is paired with the first queue entry other
than itself (which is live), or enqueued with `waiting` emitted. -/
theorem sFindPartner_char {s : SJ.SState} {id : String} {now : Nat}
    {raw : Option (List JVal)} (hs : SInv s) (hid : id ∈ s.live) :
    (match s.waitingQueue.find? (fun i => decide (i ≠ id)) with
     | some pid =>
        pid ∈ s.live ∧
        mget (SJ.step s id now (.findPartner raw)).1.activePairs id = some pid ∧
        mget (SJ.step s id now (.findPartner raw)).1.activePairs pid = some id ∧
        Out.toSock id .matched ∈ (SJ.step s id now (.findPartner raw)).2 ∧
        Out.toSock pid .matched ∈ (SJ.step s id now (.findPartner raw)).2
     | none =>
        id ∈ (SJ.step s id now (.findPartner raw)).1.waitingQueue ∧
        Out.toSock id .waiting ∈ (SJ.step s id now (.findPartner raw)).2 ∧
        mget (SJ.step s id now (.findPartner raw)).1.activePairs id = none) := by
  obtain ⟨s1, hs1eq, hs1, hid1, hq1, hl1, _⟩ := sFindPartner_stage1 id hs
  have hgoal : SJ.step s id now (.findPartner raw) =
      (let s2 := if id ∈ s1.waitingQueue then s1
        else { s1 with waitingQueue := s1.waitingQueue ++ [id] }
       let r3 := SJ.tryMatch s2 id
       (r3.1, (match mget s.activePairs id with
        | some oldPartner =>
          ({ s with activePairs := mdel (mdel s.activePairs oldPartner) id },
           if oldPartner ∈ s.live then [Out.toSock oldPartner .partnerLeft] else [])
        | none => (s, ([] : List Out))).2 ++ r3.2.1 ++
        (if r3.2.2 then [] else [Out.toSock id .waiting]))) := by
    show SJ.findPartner s id = _
    simp only [SJ.findPartner, hs1eq]
  rw [hgoal]
  set s2 := if id ∈ s1.waitingQueue then s1
    else { s1 with waitingQueue := s1.waitingQueue ++ [id] } with hs2def
  have hq2 : s2.waitingQueue.find? (fun i => decide (i ≠ id)) =
      s.waitingQueue.find? (fun i => decide (i ≠ id)) := by
    rw [hs2def]
    by_cases hin : id ∈ s1.waitingQueue
    · rw [if_pos hin, hq1]
    · rw [if_neg hin]
      show (s1.waitingQueue ++ [id]).find? _ = _
      rw [find?_append_singleton_false (by simp), hq1]
  have hp2 : mget s2.activePairs id = none := by
    rw [hs2def]
    by_cases hin : id ∈ s1.waitingQueue
    · rw [if_pos hin]; exact hid1
    · rw [if_neg hin]; exact hid1
  have hl2 : s2.live = s.live := by
    rw [hs2def]
    by_cases hin : id ∈ s1.waitingQueue
    · rw [if_pos hin]; exact hl1
    · rw [if_neg hin]; exact hl1
  cases hf : s.waitingQueue.find? (fun i => decide (i ≠ id)) with
  | none =>
    have hf2 : s2.waitingQueue.find? (fun i => decide (i ≠ id)) = none :=
      hq2.trans hf
    simp only [SJ.tryMatch, hf2]
    refine ⟨?_, by simp, hp2⟩
    rw [hs2def]
    by_cases hin : id ∈ s1.waitingQueue
    · rw [if_pos hin]
      exact hin
    · rw [if_neg hin]
      simp
  | some pid =>
    have hf2 : s2.waitingQueue.find? (fun i => decide (i ≠ id)) = some pid :=
      hq2.trans hf
    have hpmem : pid ∈ s.waitingQueue := List.mem_of_find?_eq_some hf
    have hplive : pid ∈ s.live := hs.queueLive pid hpmem
    have hpne : pid ≠ id := by simpa using List.find?_some hf
    simp only [SJ.tryMatch, hf2]
    refine ⟨hplive, mget_link_fst (Ne.symm hpne), mget_link_snd, ?_, ?_⟩
    · have : id ∈ s2.live := hl2 ▸ hid
      simp [this]
    · have : pid ∈ s2.live := hl2 ▸ hplive
      simp [this]

/-! ### Disconnect removal and absence persistence (claim C3 machinery). -/

/-- A participant with no pairing entry is nobody's recorded partner. -/
theorem not_target_of_none {pm : List (String × String)} (hsym : PSym pm)
    {d : String} (hp : mget pm d = none) : ∀ x, mget pm x ≠ some d := by
  intro x hx
  have := (hsym x d hx).1
  rw [hp] at this
  cases this

/-- part_000 disconnect scrubs the participant from registry, pool and
pairing map. -/
theorem disconnect_clears {s : P0.MState} {id : String} (hs : MInv s)
    (now : Nat) :
    id ∉ (P0.step s id now .disconnect).1.live ∧
    id ∉ mkeys (P0.step s id now .disconnect).1.waiting ∧
    mget (P0.step s id now .disconnect).1.peers id = none := by
  have hlv : id ∉ s.live.erase id := fun h =>
    ((hs.liveNodup.mem_erase_iff).mp h).1 rfl
  have hwt : id ∉ mkeys (mdel s.waiting id) :=
    not_mem_mkeys_mdel_self _ _ hs.waitNodup
  cases hpa : mget s.peers id with
  | none =>
    have hst : (P0.step s id now .disconnect).1 =
        ⟨s.online - 1, s.chatting, mdel s.waiting id, s.peers, s.live.erase id⟩ := by
      simp only [P0.step, P0.disconnect, P0.removeFromQueue, P0.endChat, hpa]
    rw [hst]
    exact ⟨hlv, hwt, hpa⟩
  | some p =>
    have hst : (P0.step s id now .disconnect).1 =
        ⟨s.online - 1, s.chatting - 2, mdel s.waiting id,
         mdel (mdel s.peers id) p, s.live.erase id⟩ := by
      simp only [P0.step, P0.disconnect, P0.removeFromQueue, P0.endChat, hpa]
    rw [hst]
    exact ⟨hlv, hwt, mget_unlink_fst hs.sym hs.peerNodup hpa⟩

/-- server.js disconnect scrubs the participant from registry, queue and
pairing map. -/
theorem sDisconnect_clears {s : SJ.SState} {id : String} (hs : SInv s)
    (now : Nat) :
    id ∉ (SJ.step s id now .disconnect).1.live ∧
    id ∉ (SJ.step s id now .disconnect).1.waitingQueue ∧
    mget (SJ.step s id now .disconnect).1.activePairs id = none := by
  have hlv : id ∉ s.live.erase id := fun h =>
    ((hs.liveNodup.mem_erase_iff).mp h).1 rfl
  have hwt : id ∉ eraseFirst s.waitingQueue id :=
    not_mem_eraseFirst_self _ _ hs.queueNodup
  cases hpa : mget s.activePairs id with
  | none =>
    have hmd : mdel s.activePairs id = s.activePairs :=
      mdel_of_not_mem _ _ (not_mem_mkeys_of_mget_none _ _ hpa)
    have hst : (SJ.step s id now .disconnect).1 =
        ⟨eraseFirst s.waitingQueue id, s.activePairs,
         mdel s.msgCount id, s.live.erase id⟩ := by
      simp only [SJ.step, SJ.disconnect, SJ.cleanupUser, hpa, hmd]
    rw [hst]
    exact ⟨hlv, hwt, hpa⟩
  | some p =>
    have hst : (SJ.step s id now .disconnect).1 =
        ⟨eraseFirst s.waitingQueue id, mdel (mdel s.activePairs p) id,
         mdel s.msgCount id, s.live.erase id⟩ := by
      simp only [SJ.step, SJ.disconnect, SJ.cleanupUser, hpa]
    rw [hst]
    exact ⟨hlv, hwt, mget_unlink_snd hs.pairNodup⟩

/-- part_000: once a participant is gone from registry, pool and pairing
map, a step by any other participant keeps it gone and pairs nobody with
it. -/
theorem step_absent {s : P0.MState} {d id : String} (hs : MInv s)
    (hne : id ≠ d) (hl : d ∉ s.live) (hw : d ∉ mkeys s.waiting)
    (hp : mget s.peers d = none) (ev : Ev) (now : Nat) :
    d ∉ (P0.step s id now ev).1.live ∧
    d ∉ mkeys (P0.step s id now ev).1.waiting ∧
    mget (P0.step s id now ev).1.peers d = none ∧
    (∀ x, mget (P0.step s id now ev).1.peers x ≠ some d) := by
  have hbase := not_target_of_none hs.sym hp
  cases ev with
  | connect =>
    refine ⟨?_, hw, hp, hbase⟩
    intro hmem
    rcases List.mem_cons.mp hmem with h | h
    · exact hne h.symm
    · exact hl h
  | msgSend v =>
    rw [show (P0.step s id now (.msgSend v)).1 = (P0.msgSend s id now v).1 from rfl,
      msgSend_state]
    exact ⟨hl, hw, hp, hbase⟩
  | chatEnd =>
    cases hpa : mget s.peers id with
    | none =>
      simp only [P0.step, P0.chatEnd, P0.endChat, P0.removeFromQueue, hpa]
      exact ⟨hl, fun h => hw (mem_mkeys_mdel _ h), hp, hbase⟩
    | some p =>
      have hdp : d ≠ p := by
        intro h
        rw [h] at hp
        rw [(hs.sym id p hpa).1] at hp
        cases hp
      simp only [P0.step, P0.chatEnd, P0.endChat, P0.removeFromQueue, hpa]
      refine ⟨hl, fun h => hw (mem_mkeys_mdel _ h), ?_, ?_⟩
      · rw [mget_unlink_other (Ne.symm hne) hdp]
        exact hp
      · intro x hx
        have hxa : x ≠ id := by
          intro h
          rw [h, mget_unlink_fst hs.sym hs.peerNodup hpa] at hx
          cases hx
        have hxb : x ≠ p := by
          intro h
          rw [h, mget_unlink_snd hs.peerNodup] at hx
          cases hx
        rw [mget_unlink_other hxa hxb] at hx
        exact hbase x hx
  | disconnect =>
    cases hpa : mget s.peers id with
    | none =>
      simp only [P0.step, P0.disconnect, P0.endChat, P0.removeFromQueue, hpa]
      exact ⟨fun h => hl (List.mem_of_mem_erase h),
        fun h => hw (mem_mkeys_mdel _ h), hp, hbase⟩
    | some p =>
      have hdp : d ≠ p := by
        intro h
        rw [h] at hp
        rw [(hs.sym id p hpa).1] at hp
        cases hp
      simp only [P0.step, P0.disconnect, P0.endChat, P0.removeFromQueue, hpa]
      refine ⟨fun h => hl (List.mem_of_mem_erase h),
        fun h => hw (mem_mkeys_mdel _ h), ?_, ?_⟩
      · rw [mget_unlink_other (Ne.symm hne) hdp]
        exact hp
      · intro x hx
        have hxa : x ≠ id := by
          intro h
          rw [h, mget_unlink_fst hs.sym hs.peerNodup hpa] at hx
          cases hx
        have hxb : x ≠ p := by
          intro h
          rw [h, mget_unlink_snd hs.peerNodup] at hx
          cases hx
        rw [mget_unlink_other hxa hxb] at hx
        exact hbase x hx
  | findPartner raw =>
    obtain ⟨s1, hs1eq, hs1, hid1, hw1, hl1, ho1, hv1⟩ := findPartner_stage1 id hs
    have hgoal : (P0.step s id now (.findPartner raw)).1 =
        (P0.tryMatch (P0.removeFromQueue s1 id) id (P0.normalizeTags raw) now).1 := by
      show (P0.findPartner s id now raw).1 = _
      simp only [P0.findPartner, hs1eq]
    rw [hgoal]
    set s2 := P0.removeFromQueue s1 id with hs2def
    have hs2 : MInv s2 := removeFromQueue_minv hs1
    have hp2 : mget s2.peers d = none := by
      cases hg : mget s2.peers d with
      | none => rfl
      | some w =>
        have := hv1 d w hg
        rw [hp] at this
        cases this
    have hbase2 : ∀ x, mget s2.peers x ≠ some d := by
      intro x hx
      have := hv1 x d hx
      exact hbase x this
    have hw2 : d ∉ mkeys s2.waiting := by
      intro h
      apply hw
      have : d ∈ mkeys (mdel s1.waiting id) := h
      rw [hw1] at this
      exact mem_mkeys_mdel _ this
    have hl2 : d ∉ s2.live := by
      show d ∉ s1.live
      rw [hl1]
      exact hl
    have hidp2 : mget s2.peers id = none := hid1
    have hnch : ¬ P0.isChatting s2 id := by simp [P0.isChatting, hidp2]
    cases hc : P0.firstCandidate s2 id (P0.normalizeTags raw) with
    | none =>
      rw [tryMatch_none hnch hc]
      refine ⟨hl2, ?_, hp2, hbase2⟩
      intro h
      have hid2 : id ∉ mkeys s2.waiting :=
        not_mem_mkeys_mdel_self s1.waiting id hs1.waitNodup
      rw [mkeys_mset_not_mem _ _ _ hid2] at h
      rcases List.mem_append.mp h with h1 | h1
      · exact hw2 h1
      · exact hne (List.mem_singleton.mp h1).symm
    | some ci =>
      obtain ⟨c, info⟩ := ci
      obtain ⟨hmem, hcne, hcp, _⟩ := firstCandidate_spec hc
      have hcd : c ≠ d := by
        intro h
        exact hw2 (h ▸ mem_mkeys_of_mem hmem)
      have hclive : c ∈ s2.live := hs2.waitLive c (mem_mkeys_of_mem hmem)
      rw [tryMatch_some hnch hc hclive]
      refine ⟨hl2, ?_, ?_, ?_⟩
      · intro h
        exact hw2 (mem_mkeys_mdel _ (mem_mkeys_mdel _ h))
      · rw [mget_link_other (fun h => hne h.symm) (fun h => hcd h.symm)]
        exact hp2
      · intro x hx
        by_cases hxi : x = id
        · rw [hxi, mget_link_fst (Ne.symm hcne)] at hx
          exact hcd (Option.some.inj hx)
        · by_cases hxc : x = c
          · rw [hxc, mget_link_snd] at hx
            exact hne (Option.some.inj hx)
          · rw [mget_link_other hxi hxc] at hx
            exact hbase2 x hx

/-- server.js: once a participant is gone from registry, queue and pairing
map, a step by any other participant keeps it gone and pairs nobody with
it. -/
theorem sStep_absent {s : SJ.SState} {d id : String} (hs : SInv s)
    (hne : id ≠ d) (hl : d ∉ s.live) (hw : d ∉ s.waitingQueue)
    (hp : mget s.activePairs d = none) (ev : Ev) (now : Nat) :
    d ∉ (SJ.step s id now ev).1.live ∧
    d ∉ (SJ.step s id now ev).1.waitingQueue ∧
    mget (SJ.step s id now ev).1.activePairs d = none ∧
    (∀ x, mget (SJ.step s id now ev).1.activePairs x ≠ some d) := by
  have hbase := not_target_of_none hs.sym hp
  cases ev with
  | connect =>
    refine ⟨?_, hw, hp, hbase⟩
    intro hmem
    rcases List.mem_cons.mp hmem with h | h
    · exact hne h.symm
    · exact hl h
  | msgSend v =>
    obtain ⟨mc, hmc⟩ := sMsgSend_fields s id now v
    rw [show (SJ.step s id now (.msgSend v)).1 = (SJ.msgSend s id now v).1 from rfl,
      hmc]
    exact ⟨hl, hw, hp, hbase⟩
  | chatEnd =>
    cases hpa : mget s.activePairs id with
    | none =>
      simp only [SJ.step, SJ.chatEnd, hpa]
      refine ⟨hl, hw, ?_, ?_⟩
      · rw [mget_mdel_ne _ (fun h => hne h.symm)]
        exact hp
      · intro x hx
        by_cases hxi : x = id
        · rw [hxi, mget_mdel_self _ _ hs.pairNodup] at hx
          cases hx
        · rw [mget_mdel_ne _ hxi] at hx
          exact hbase x hx
    | some p =>
      have hab : mget s.activePairs p = some id := (hs.sym id p hpa).1
      have hdp : d ≠ p := by
        intro h
        rw [h, hab] at hp
        cases hp
      simp only [SJ.step, SJ.chatEnd, hpa]
      refine ⟨hl, hw, ?_, ?_⟩
      · rw [mget_unlink_other hdp (fun h => hne h.symm)]
        exact hp
      · intro x hx
        have hxa : x ≠ p := by
          intro h
          rw [h, mget_unlink_fst hs.sym hs.pairNodup hab] at hx
          cases hx
        have hxb : x ≠ id := by
          intro h
          rw [h, mget_unlink_snd hs.pairNodup] at hx
          cases hx
        rw [mget_unlink_other hxa hxb] at hx
        exact hbase x hx
  | disconnect =>
    have hwq : d ∉ eraseFirst s.waitingQueue id :=
      fun h => hw (mem_eraseFirst _ h)
    have hlv : d ∉ s.live.erase id := fun h => hl (List.mem_of_mem_erase h)
    cases hpa : mget s.activePairs id with
    | none =>
      have hmd : mdel s.activePairs id = s.activePairs :=
        mdel_of_not_mem _ _ (not_mem_mkeys_of_mget_none _ _ hpa)
      have hst : (SJ.step s id now .disconnect).1 =
          ⟨eraseFirst s.waitingQueue id, s.activePairs,
           mdel s.msgCount id, s.live.erase id⟩ := by
        simp only [SJ.step, SJ.disconnect, SJ.cleanupUser, hpa, hmd]
      rw [hst]
      exact ⟨hlv, hwq, hp, hbase⟩
    | some p =>
      have hab : mget s.activePairs p = some id := (hs.sym id p hpa).1
      have hdp : d ≠ p := by
        intro h
        rw [h, hab] at hp
        cases hp
      have hst : (SJ.step s id now .disconnect).1 =
          ⟨eraseFirst s.waitingQueue id, mdel (mdel s.activePairs p) id,
           mdel s.msgCount id, s.live.erase id⟩ := by
        simp only [SJ.step, SJ.disconnect, SJ.cleanupUser, hpa]
      rw [hst]
      refine ⟨hlv, hwq, ?_, ?_⟩
      · rw [mget_unlink_other hdp (fun h => hne h.symm)]
        exact hp
      · intro x hx
        have hxa : x ≠ p := by
          intro h
          rw [h, mget_unlink_fst hs.sym hs.pairNodup hab] at hx
          cases hx
        have hxb : x ≠ id := by
          intro h
          rw [h, mget_unlink_snd hs.pairNodup] at hx
          cases hx
        rw [mget_unlink_other hxa hxb] at hx
        exact hbase x hx
  | findPartner raw =>
    obtain ⟨s1, hs1eq, hs1, hid1, hq1, hl1, hv1⟩ := sFindPartner_stage1 id hs
    have hgoal : (SJ.step s id now (.findPartner raw)).1 =
        (SJ.tryMatch (if id ∈ s1.waitingQueue then s1
          else { s1 with waitingQueue := s1.waitingQueue ++ [id] }) id).1 := by
      show (SJ.findPartner s id).1 = _
      simp only [SJ.findPartner, hs1eq]
    rw [hgoal]
    set s2 := if id ∈ s1.waitingQueue then s1
      else { s1 with waitingQueue := s1.waitingQueue ++ [id] } with hs2def
    have hq2mem : ∀ x, x ∈ s2.waitingQueue → x ∈ s.waitingQueue ∨ x = id := by
      intro x hx
      rw [hs2def] at hx
      by_cases hin : id ∈ s1.waitingQueue
      · rw [if_pos hin] at hx
        exact Or.inl (hq1 ▸ hx)
      · rw [if_neg hin] at hx
        rcases List.mem_append.mp hx with h | h
        · exact Or.inl (hq1 ▸ h)
        · exact Or.inr (List.mem_singleton.mp h)
    have hp2pairs : s2.activePairs = s1.activePairs := by
      rw [hs2def]
      by_cases hin : id ∈ s1.waitingQueue
      · rw [if_pos hin]
      · rw [if_neg hin]
    have hl2 : s2.live = s.live := by
      rw [hs2def]
      by_cases hin : id ∈ s1.waitingQueue
      · rw [if_pos hin]; exact hl1
      · rw [if_neg hin]; exact hl1
    have hp2 : mget s2.activePairs d = none := by
      rw [hp2pairs]
      cases hg : mget s1.activePairs d with
      | none => rfl
      | some w =>
        have := hv1 d w hg
        rw [hp] at this
        cases this
    have hbase2 : ∀ x, mget s2.activePairs x ≠ some d := by
      intro x hx
      rw [hp2pairs] at hx
      exact hbase x (hv1 x d hx)
    have hw2 : d ∉ s2.waitingQueue := by
      intro h
      rcases hq2mem d h with h1 | h1
      · exact hw h1
      · exact hne h1.symm
    have hl2d : d ∉ s2.live := hl2 ▸ hl
    cases hf : s2.waitingQueue.find? (fun i => decide (i ≠ id)) with
    | none =>
      simp only [SJ.tryMatch, hf]
      exact ⟨hl2d, hw2, hp2, hbase2⟩
    | some pid =>
      have hpmem : pid ∈ s2.waitingQueue := List.mem_of_find?_eq_some hf
      have hpne : pid ≠ id := by simpa using List.find?_some hf
      have hpd : pid ≠ d := by
        intro h
        rcases hq2mem pid hpmem with h1 | h1
        · exact hw (h ▸ h1)
        · exact hpne h1
      simp only [SJ.tryMatch, hf]
      refine ⟨hl2d, ?_, ?_, ?_⟩
      · intro h
        exact hw2 (mem_eraseFirst _ (mem_eraseFirst _ h))
      · rw [mget_link_other (fun h => hne h.symm) (fun h => hpd h.symm)]
        exact hp2
      · intro x hx
        by_cases hxi : x = id
        · rw [hxi, mget_link_fst (Ne.symm hpne)] at hx
          exact hpd (Option.some.inj hx)
        · by_cases hxp : x = pid
          · rw [hxp, mget_link_snd] at hx
            exact hne (Option.some.inj hx)
          · rw [mget_link_other hxi hxp] at hx
            exact hbase2 x hx

/-! ### Characterizations of the message:send handlers. -/

/-- part_000 message:send with an empty cleaned text is a silent drop. -/
theorem msgSend_empty {s : P0.MState} {id : String} {now : Nat} {v : JVal}
    (h : jsTrim (jOrEmptyString v) = "") : P0.msgSend s id now v = (s, []) := by
  simp only [P0.msgSend, h]
  rfl

/-- part_000 message:send with a non-empty cleaned text: no-partner error,
or forwarding of the trimmed coercion (never truncated) to a live partner. -/
theorem msgSend_char {s : P0.MState} {id : String} {now : Nat} {v : JVal}
    (h : jsTrim (jOrEmptyString v) ≠ "") :
    P0.msgSend s id now v =
      (s, match mget s.peers id with
          | none => [Out.toSock id .errNoPartner]
          | some p =>
            if p ∈ s.live
            then [Out.toSock p (.msgReceive (jsTrim (jOrEmptyString v)) now)]
            else []) := by
  simp only [P0.msgSend, if_neg h]
  cases hp : mget s.peers id with
  | none => rfl
  | some p =>
    by_cases hl : p ∈ s.live
    · simp [hl]
    · simp [hl]

/-- part_000: a sender with no pairing entry gets the no-partner error and
nobody receives anything. -/
theorem msgSend_no_partner {s : P0.MState} {id : String} {now : Nat} {v : JVal}
    (hnp : mget s.peers id = none) :
    (∀ x t ts, Out.toSock x (.msgReceive t ts) ∉ (P0.msgSend s id now v).2) ∧
    (jsTrim (jOrEmptyString v) ≠ "" →
      (P0.msgSend s id now v).2 = [Out.toSock id .errNoPartner]) := by
  by_cases he : jsTrim (jOrEmptyString v) = ""
  · rw [msgSend_empty he]
    constructor
    · intro x t ts hmem
      cases hmem
    · intro hne
      exact absurd he hne
  · rw [msgSend_char he, hnp]
    constructor
    · intro x t ts h
      simp at h
    · intro _
      rfl

/-- server.js message:send drops non-string payloads with no state change. -/
theorem sMsgSend_nonstring {s : SJ.SState} {id : String} {now : Nat} {v : JVal}
    (h : jIsString v = none) : SJ.msgSend s id now v = (s, []) := by
  simp only [SJ.msgSend, h]

/-- server.js message:send drops empty-after-cleaning strings with no state
change. -/
theorem sMsgSend_empty {s : SJ.SState} {id : String} {now : Nat} {v : JVal}
    {text : String} (hv : jIsString v = some text)
    (h : jsTake (jsTrim text) SJ.MAX_MSG_LEN = "") :
    SJ.msgSend s id now v = (s, []) := by
  simp only [SJ.msgSend, hv, h]
  rfl

/-- server.js message:send on a well-formed non-empty text: the rate counter
is updated first (unconditionally); an over-limit message yields only the
rate-limit error; otherwise the no-partner error or delivery of the
trimmed-and-truncated text. -/
theorem sMsgSend_char {s : SJ.SState} {id : String} {now : Nat} {v : JVal}
    {text : String} (hv : jIsString v = some text)
    (h : jsTake (jsTrim text) SJ.MAX_MSG_LEN ≠ "") :
    SJ.msgSend s id now v =
      ({ s with msgCount := (SJ.checkMsgRate s.msgCount id now).1 },
       if (SJ.checkMsgRate s.msgCount id now).2 = false
       then [Out.toSock id .errRatelimit]
       else match mget s.activePairs id with
         | none => [Out.toSock id .errNoPartner]
         | some p =>
           if p ∈ s.live
           then [Out.toSock p (.msgReceive (jsTake (jsTrim text) SJ.MAX_MSG_LEN) now)]
           else []) := by
  simp only [SJ.msgSend, hv, if_neg h]
  cases hr : (SJ.checkMsgRate s.msgCount id now).2 with
  | false => simp [hr]
  | true =>
    cases hp : mget s.activePairs id with
    | none => simp [hr, hp]
    | some p =>
      by_cases hl : p ∈ s.live
      · simp [hr, hp, hl]
      · simp [hr, hp, hl]

/-- server.js: a sender with no pairing entry never triggers a
message_receive (whatever the rate limiter does). -/
theorem sMsgSend_no_receive {s : SJ.SState} {id : String} {now : Nat} {v : JVal}
    (hnp : mget s.activePairs id = none) :
    ∀ x t ts, Out.toSock x (.msgReceive t ts) ∉ (SJ.msgSend s id now v).2 := by
  intro x t ts
  cases hv : jIsString v with
  | none =>
    rw [sMsgSend_nonstring hv]
    intro hmem
    cases hmem
  | some text =>
    by_cases he : jsTake (jsTrim text) SJ.MAX_MSG_LEN = ""
    · rw [sMsgSend_empty hv he]
      intro hmem
      cases hmem
    · rw [sMsgSend_char hv he, hnp]
      cases hr : (SJ.checkMsgRate s.msgCount id now).2 with
      | false => simp [hr]
      | true => simp [hr]

/-- The fixed-window rate counter: an unexpired window is incremented in
place, an expired or missing one restarts at one. -/
theorem checkMsgRate_char (mc : List (String × SJ.Rate)) (id : String)
    (now : Nat) :
    (∀ d, mget mc id = some d → ¬ now > d.resetAt →
      SJ.checkMsgRate mc id now =
        (mset mc id ⟨d.count + 1, d.resetAt⟩, decide (d.count + 1 ≤ 60))) ∧
    (∀ d, mget mc id = some d → now > d.resetAt →
      SJ.checkMsgRate mc id now = (mset mc id ⟨1, now + 60000⟩, true)) ∧
    (mget mc id = none →
      SJ.checkMsgRate mc id now = (mset mc id ⟨1, now + 60000⟩, true)) := by
  refine ⟨?_, ?_, ?_⟩
  · intro d hd hwin
    simp [SJ.checkMsgRate, hd, hwin, SJ.MAX_MSGS_MIN]
  · intro d hd hexp
    simp [SJ.checkMsgRate, hd, hexp, SJ.MAX_MSGS_MIN]
  · intro hd
    simp [SJ.checkMsgRate, hd, SJ.MAX_MSGS_MIN]

/-! ### Characterizations of the chat:end handlers. -/

/-- part_000 chat:end with an active session: both sides are unlinked and
the partner is told. -/
theorem chatEnd_char {s : P0.MState} {id p : String} (hs : MInv s)
    (now : Nat) (hp : mget s.peers id = some p) :
    mget (P0.step s id now .chatEnd).1.peers id = none ∧
    mget (P0.step s id now .chatEnd).1.peers p = none ∧
    Out.toSock p .partnerLeft ∈ (P0.step s id now .chatEnd).2 := by
  have hplive : p ∈ s.live :=
    hs.peerLive p (mem_mkeys_of_mget_some _ (hs.sym id p hp).1)
  have hst : (P0.step s id now .chatEnd).1 =
      ⟨s.online, s.chatting - 2, mdel s.waiting id,
       mdel (mdel s.peers id) p, s.live⟩ := by
    simp only [P0.step, P0.chatEnd, P0.endChat, P0.removeFromQueue, hp]
  have hout : (P0.step s id now .chatEnd).2 =
      [Out.toSock p .partnerLeft,
       Out.broadcast (.stats s.online (s.chatting - 2))] := by
    simp only [P0.step, P0.chatEnd, P0.endChat, P0.removeFromQueue, hp,
      P0.statsOut]
    simp [hplive]
  rw [hst, hout]
  exact ⟨mget_unlink_fst hs.sym hs.peerNodup hp,
    mget_unlink_snd hs.peerNodup, by simp⟩

/-- part_000 chat:end with no session: the session state is untouched. -/
theorem chatEnd_noop {s : P0.MState} {id : String} (now : Nat)
    (hp : mget s.peers id = none) :
    (P0.step s id now .chatEnd).1.peers = s.peers ∧
    (P0.step s id now .chatEnd).1.chatting = s.chatting := by
  constructor
  · simp only [P0.step, P0.chatEnd, P0.endChat, P0.removeFromQueue, hp]
  · simp only [P0.step, P0.chatEnd, P0.endChat, P0.removeFromQueue, hp]

/-- server.js chat:end with an active session: both sides are unlinked and
the partner is told. -/
theorem sChatEnd_char {s : SJ.SState} {id p : String} (hs : SInv s)
    (now : Nat) (hp : mget s.activePairs id = some p) :
    mget (SJ.step s id now .chatEnd).1.activePairs id = none ∧
    mget (SJ.step s id now .chatEnd).1.activePairs p = none ∧
    Out.toSock p .partnerLeft ∈ (SJ.step s id now .chatEnd).2 := by
  have hab : mget s.activePairs p = some id := (hs.sym id p hp).1
  have hplive : p ∈ s.live := hs.pairLive p (mem_mkeys_of_mget_some _ hab)
  simp only [SJ.step, SJ.chatEnd, hp]
  refine ⟨mget_unlink_snd hs.pairNodup,
    mget_unlink_fst hs.sym hs.pairNodup hab, ?_⟩
  simp [hplive]

/-- server.js chat:end with no session: the session state is untouched and
nothing is emitted. -/
theorem sChatEnd_noop {s : SJ.SState} {id : String} (hs : SInv s) (now : Nat)
    (hp : mget s.activePairs id = none) :
    (SJ.step s id now .chatEnd).1 = s ∧ (SJ.step s id now .chatEnd).2 = [] := by
  have hmd : mdel s.activePairs id = s.activePairs :=
    mdel_of_not_mem _ _ (not_mem_mkeys_of_mget_none _ _ hp)
  constructor
  · simp only [SJ.step, SJ.chatEnd, hp, hmd]
  · simp only [SJ.step, SJ.chatEnd, hp, hmd]

/-! ### Session-count helpers for the stats claims. -/

/-- Number of live sessions of the part_000 server (each session occupies
two entries of the pairing map). -/
def sessionsP0 (s : P0.MState) : Nat := s.peers.length / 2

/-- Number of live sessions of the server.js server. -/
def sessionsSJ (s : SJ.SState) : Nat := s.activePairs.length / 2

/-! ### The claims. -/

/-- C1: on every find_partner request the engine scans the pool entries
other than the requester in insertion order and pairs the requester with the
first candidate that is eligible under the spec's tag rule (requester
tagless, or candidate tagless, or intersecting tag sets under exact string
equality), with no scoring; if none is eligible the requester is inserted
into the pool with its tags and `waiting` is emitted to it.  Stated for the
tag-aware variant (part_000) and, with the vacuous tag rule, for the
plain-queue variant (server.js). -/
theorem claim_C1 :
    (∀ (s : P0.MState) (id : String) (now : Nat) (raw : Option (List JVal)),
      MReach s → id ∈ s.live →
      (match (mdel s.waiting id).find?
          (fun e => decide (e.1 ≠ id) &&
            eligibleSpec (P0.normalizeTags raw) e.2.tags) with
       | some (c, _) =>
          mget (P0.step s id now (.findPartner raw)).1.peers id = some c ∧
          mget (P0.step s id now (.findPartner raw)).1.peers c = some id ∧
          Out.toSock id .matched ∈ (P0.step s id now (.findPartner raw)).2 ∧
          Out.toSock c .matched ∈ (P0.step s id now (.findPartner raw)).2
       | none =>
          mget (P0.step s id now (.findPartner raw)).1.waiting id =
            some ⟨P0.normalizeTags raw, now⟩ ∧
          Out.toSock id .waiting ∈ (P0.step s id now (.findPartner raw)).2)) ∧
    (∀ (s : SJ.SState) (id : String) (now : Nat) (raw : Option (List JVal)),
      SReach s → id ∈ s.live →
      (match s.waitingQueue.find? (fun i => decide (i ≠ id)) with
       | some pid =>
          pid ∈ s.live ∧
          mget (SJ.step s id now (.findPartner raw)).1.activePairs id = some pid ∧
          mget (SJ.step s id now (.findPartner raw)).1.activePairs pid = some id ∧
          Out.toSock id .matched ∈ (SJ.step s id now (.findPartner raw)).2 ∧
          Out.toSock pid .matched ∈ (SJ.step s id now (.findPartner raw)).2
       | none =>
          id ∈ (SJ.step s id now (.findPartner raw)).1.waitingQueue ∧
          Out.toSock id .waiting ∈ (SJ.step s id now (.findPartner raw)).2 ∧
          mget (SJ.step s id now (.findPartner raw)).1.activePairs id = none)) :=
  ⟨fun _ _ _ _ hr hid => findPartner_char (minv_reach hr) hid,
   fun _ _ _ _ hr hid => sFindPartner_char (sinv_reach hr) hid⟩

theorem claim_C1_witness :
    (mget (P0.step mC "b" 5 (.findPartner none)).1.peers "b" = some "a" ∧
     mget (P0.step mC "b" 5 (.findPartner none)).1.peers "a" = some "b" ∧
     Out.toSock "b" .matched ∈ (P0.step mC "b" 5 (.findPartner none)).2 ∧
     Out.toSock "a" .matched ∈ (P0.step mC "b" 5 (.findPartner none)).2) ∧
    ("a" ∈ sC.live ∧
     mget (SJ.step sC "b" 5 (.findPartner none)).1.activePairs "b" = some "a" ∧
     mget (SJ.step sC "b" 5 (.findPartner none)).1.activePairs "a" = some "b" ∧
     Out.toSock "b" .matched ∈ (SJ.step sC "b" 5 (.findPartner none)).2 ∧
     Out.toSock "a" .matched ∈ (SJ.step sC "b" 5 (.findPartner none)).2) := by
  constructor
  · have h := claim_C1.1 mC "b" 5 none mReach_mC (by decide)
    have hf : (mdel mC.waiting "b").find?
        (fun e => decide (e.1 ≠ "b") &&
          eligibleSpec (P0.normalizeTags none) e.2.tags) =
        some ("a", ⟨[], 0⟩) := by decide
    rw [hf] at h
    exact h
  · have h := claim_C1.2 sC "b" 5 none sReach_sC (by decide)
    have hf : sC.waitingQueue.find? (fun i => decide (i ≠ "b")) = some "a" := by
      decide
    rw [hf] at h
    exact h

/-- C2: in every reachable state the pairing map is symmetric (A's partner
B implies B's partner is exactly A, with A ≠ B) and exclusive (no
participant is the partner of two distinct participants), in both
variants. -/
theorem claim_C2 :
    (∀ s : P0.MState, MReach s →
      (∀ a b, mget s.peers a = some b → mget s.peers b = some a ∧ a ≠ b) ∧
      (∀ a b c, mget s.peers a = some c → mget s.peers b = some c → a = b)) ∧
    (∀ s : SJ.SState, SReach s →
      (∀ a b, mget s.activePairs a = some b →
        mget s.activePairs b = some a ∧ a ≠ b) ∧
      (∀ a b c, mget s.activePairs a = some c →
        mget s.activePairs b = some c → a = b)) :=
  ⟨fun _ hr => ⟨(minv_reach hr).sym, (minv_reach hr).sym.inj⟩,
   fun _ hr => ⟨(sinv_reach hr).sym, (sinv_reach hr).sym.inj⟩⟩

theorem claim_C2_witness :
    (mget mD.peers "b" = some "a" ∧ "a" ≠ "b") ∧
    (mget sD.activePairs "b" = some "a" ∧ "a" ≠ "b") :=
  ⟨(claim_C2.1 mD mReach_mD).1 "a" "b" (by decide),
   (claim_C2.2 sD sReach_sD).1 "a" "b" (by decide)⟩

/-- C3: in every reachable state no identifier is both in the pool and in a
session, the pool has no duplicate identifiers, a disconnect removes the
participant from registry, pool and pairing map, and once absent it stays
absent under steps of other participants and is never selected as anyone's
partner — in both variants. -/
theorem claim_C3 :
    (∀ s : P0.MState, MReach s →
      (∀ k ∈ mkeys s.waiting, mget s.peers k = none) ∧
      (mkeys s.waiting).Nodup ∧
      (∀ id (now : Nat),
        id ∉ (P0.step s id now .disconnect).1.live ∧
        id ∉ mkeys (P0.step s id now .disconnect).1.waiting ∧
        mget (P0.step s id now .disconnect).1.peers id = none) ∧
      (∀ d id ev (now : Nat), id ≠ d → d ∉ s.live → d ∉ mkeys s.waiting →
        mget s.peers d = none →
        d ∉ (P0.step s id now ev).1.live ∧
        d ∉ mkeys (P0.step s id now ev).1.waiting ∧
        mget (P0.step s id now ev).1.peers d = none ∧
        (∀ x, mget (P0.step s id now ev).1.peers x ≠ some d))) ∧
    (∀ s : SJ.SState, SReach s →
      (∀ k ∈ s.waitingQueue, mget s.activePairs k = none) ∧
      s.waitingQueue.Nodup ∧
      (∀ id (now : Nat),
        id ∉ (SJ.step s id now .disconnect).1.live ∧
        id ∉ (SJ.step s id now .disconnect).1.waitingQueue ∧
        mget (SJ.step s id now .disconnect).1.activePairs id = none) ∧
      (∀ d id ev (now : Nat), id ≠ d → d ∉ s.live → d ∉ s.waitingQueue →
        mget s.activePairs d = none →
        d ∉ (SJ.step s id now ev).1.live ∧
        d ∉ (SJ.step s id now ev).1.waitingQueue ∧
        mget (SJ.step s id now ev).1.activePairs d = none ∧
        (∀ x, mget (SJ.step s id now ev).1.activePairs x ≠ some d))) := by
  constructor
  · intro s hr
    have hs := minv_reach hr
    exact ⟨hs.disj, hs.waitNodup,
      fun id now => disconnect_clears hs now,
      fun d id ev now hne hl hw hp => step_absent hs hne hl hw hp ev now⟩
  · intro s hr
    have hs := sinv_reach hr
    exact ⟨hs.disj, hs.queueNodup,
      fun id now => sDisconnect_clears hs now,
      fun d id ev now hne hl hw hp => sStep_absent hs hne hl hw hp ev now⟩

theorem claim_C3_witness :
    (mget mC.peers "a" = none ∧
     "a" ∉ (P0.step mC "a" 7 .disconnect).1.live ∧
     "a" ∉ mkeys (P0.step mC "a" 7 .disconnect).1.waiting ∧
     (∀ x, mget (P0.step mC "b" 8 (.findPartner none)).1.peers x ≠ some "z")) ∧
    (mget sC.activePairs "a" = none ∧
     "a" ∉ (SJ.step sC "a" 7 .disconnect).1.live ∧
     "a" ∉ (SJ.step sC "a" 7 .disconnect).1.waitingQueue ∧
     (∀ x, mget (SJ.step sC "b" 8 (.findPartner none)).1.activePairs x ≠ some "z")) := by
  constructor
  · obtain ⟨hd, _, hcl, habs⟩ := claim_C3.1 mC mReach_mC
    exact ⟨hd "a" (by decide), (hcl "a" 7).1, (hcl "a" 7).2.1,
      (habs "z" "b" (.findPartner none) 8 (by decide) (by decide) (by decide)
        (by decide)).2.2.2⟩
  · obtain ⟨hd, _, hcl, habs⟩ := claim_C3.2 sC sReach_sC
    exact ⟨hd "a" (by decide), (hcl "a" 7).1, (hcl "a" 7).2.1,
      (habs "z" "b" (.findPartner none) 8 (by decide) (by decide) (by decide)
        (by decide)).2.2.2⟩

/-- C4 as frozen is false for server.js: in the reachable state with one
session, getStats reports chatting = activePairs.size / 2 = 1, which is odd
and equals the number of sessions, not twice the number of sessions. -/
theorem claim_C4_counterexample :
    SReach sD ∧ sessionsSJ sD = 1 ∧ (SJ.getStats sD).chatting = 1 ∧
    (SJ.getStats sD).chatting ≠ 2 * sessionsSJ sD ∧
    ¬ Even ((SJ.getStats sD).chatting) :=
  ⟨sReach_sD, by decide, by decide, by decide, by decide⟩

/-- C4 amended: in the part_000 variant the stats `chatting` value counts
participants — it is always even and equals twice the number of live
sessions; in the server.js variant getStats reports the number of sessions
(activePairs.size / 2), i.e. half the number of chatting participants. -/
theorem claim_C4 :
    (∀ s : P0.MState, MReach s →
      (P0.getStats s).chatting = 2 * sessionsP0 s ∧
      Even ((P0.getStats s).chatting)) ∧
    (∀ s : SJ.SState, SReach s →
      (SJ.getStats s).chatting = sessionsSJ s ∧
      2 * (SJ.getStats s).chatting = s.activePairs.length) := by
  constructor
  · intro s hr
    have hs := minv_reach hr
    have hchat := hs.chatEq
    obtain ⟨k, hk⟩ := hs.peerEven
    constructor
    · show s.chatting = 2 * (s.peers.length / 2)
      omega
    · show Even s.chatting
      exact ⟨k, by omega⟩
  · intro s hr
    have hs := sinv_reach hr
    obtain ⟨k, hk⟩ := hs.pairEven
    constructor
    · rfl
    · show 2 * (s.activePairs.length / 2) = s.activePairs.length
      omega

theorem claim_C4_witness :
    ((P0.getStats mD).chatting = 2 * sessionsP0 mD ∧
     Even ((P0.getStats mD).chatting)) ∧
    ((SJ.getStats sD).chatting = sessionsSJ sD ∧
     2 * (SJ.getStats sD).chatting = sD.activePairs.length) :=
  ⟨claim_C4.1 mD mReach_mD, claim_C4.2 sD sReach_sD⟩

/-- C5 as frozen is false: (part_000) in a reachable paired state every
message:send leaves the state unchanged and is delivered, so 61 identical
sends within any span are all delivered — the 61st is not dropped and no
rate-limit error is ever emitted; (server.js) the window is fixed, not
sliding: after 60 counted messages (first at time 0, the rest at time 1)
two further sends at time 60001 — the 61st and 62nd messages of the
60-second span starting at time 1 — are both delivered. -/
theorem claim_C5_counterexample :
    (MReach mD ∧
     (P0.step mD "a" 0 (.msgSend (.jstr "hi"))).1 = mD ∧
     (P0.step mD "a" 0 (.msgSend (.jstr "hi"))).2 =
       [Out.toSock "b" (.msgReceive "hi" 0)] ∧
     Out.toSock "a" .errRatelimit ∉ (P0.step mD "a" 0 (.msgSend (.jstr "hi"))).2) ∧
    (SReach (sP 60 60000) ∧
     SJ.step (sP 60 60000) "a" 60001 (.msgSend (.jstr "hi")) =
       (sP 1 120001, [Out.toSock "b" (.msgReceive "hi" 60001)]) ∧
     (SJ.step (sP 1 120001) "a" 60001 (.msgSend (.jstr "hi"))).2 =
       [Out.toSock "b" (.msgReceive "hi" 60001)] ∧
     Out.toSock "a" .errRatelimit ∉
       (SJ.step (sP 1 120001) "a" 60001 (.msgSend (.jstr "hi"))).2 ∧
     60001 - 1 ≤ 60000) := by
  refine ⟨⟨mReach_mD, by decide, by decide, by decide⟩,
    ⟨sReach_sP 60 (by decide) (by decide), by decide, by decide, by decide,
     by decide⟩⟩

/-- C5 amended: server.js rate-limits per sender over a fixed 60-second
window (anchored at the first message after expiry), limit 60 per window: a
message arriving with the window unexpired and the counter already at 60 is
dropped with only `error_ratelimit` emitted and nothing delivered; a message
arriving after the window expired restarts the counter and is never
rate-dropped.  The part_000 variant performs no message rate limiting at
all. -/
theorem claim_C5 :
    (∀ (s : SJ.SState) (id : String) (now : Nat) (v : JVal) (text : String)
      (d : SJ.Rate),
      jIsString v = some text → jsTake (jsTrim text) SJ.MAX_MSG_LEN ≠ "" →
      mget s.msgCount id = some d → ¬ now > d.resetAt → 60 ≤ d.count →
      (SJ.msgSend s id now v).2 = [Out.toSock id .errRatelimit]) ∧
    (∀ (s : SJ.SState) (id : String) (now : Nat) (v : JVal) (text : String)
      (d : SJ.Rate),
      jIsString v = some text → jsTake (jsTrim text) SJ.MAX_MSG_LEN ≠ "" →
      mget s.msgCount id = some d → now > d.resetAt →
      ∀ x, Out.toSock x .errRatelimit ∉ (SJ.msgSend s id now v).2) ∧
    (∀ (s : P0.MState) (id : String) (now : Nat) (v : JVal) (x : String),
      Out.toSock x .errRatelimit ∉ (P0.msgSend s id now v).2) := by
  refine ⟨?_, ?_, ?_⟩
  · intro s id now v text d hv hcl hd hwin hcnt
    have hrc := (checkMsgRate_char s.msgCount id now).1 d hd hwin
    have hfalse : (SJ.checkMsgRate s.msgCount id now).2 = false := by
      rw [hrc]
      simp only [decide_eq_false_iff_not]
      omega
    rw [sMsgSend_char hv hcl, if_pos hfalse]
  · intro s id now v text d hv hcl hd hexp x
    have hrc := (checkMsgRate_char s.msgCount id now).2.1 d hd hexp
    have htrue : (SJ.checkMsgRate s.msgCount id now).2 = true := by
      rw [hrc]
    rw [sMsgSend_char hv hcl, if_neg (by rw [htrue]; simp)]
    cases hp : mget s.activePairs id with
    | none => simp
    | some p =>
      by_cases hl : p ∈ s.live
      · simp [hl]
      · simp [hl]
  · intro s id now v x
    by_cases he : jsTrim (jOrEmptyString v) = ""
    · rw [msgSend_empty he]
      intro h
      cases h
    · rw [msgSend_char he]
      cases hp : mget s.peers id with
      | none => simp
      | some p =>
        by_cases hl : p ∈ s.live
        · simp [hl]
        · simp [hl]

theorem claim_C5_witness :
    ((SJ.msgSend (sMsgN 60) "a" 0 (.jstr "hi")).2 =
      [Out.toSock "a" .errRatelimit]) ∧
    (∀ x, Out.toSock x .errRatelimit ∉
      (SJ.msgSend (sP 60 60000) "a" 60001 (.jstr "hi")).2) ∧
    (Out.toSock "a" .errRatelimit ∉ (P0.msgSend mD "a" 0 (.jstr "hi")).2) :=
  ⟨claim_C5.1 (sMsgN 60) "a" 0 (.jstr "hi") "hi" ⟨60, 60000⟩ (by decide)
      (by decide) (by decide) (by decide) (by decide),
   claim_C5.2.1 (sP 60 60000) "a" 60001 (.jstr "hi") "hi" ⟨60, 60000⟩
      (by decide) (by decide) (by decide) (by decide),
   claim_C5.2.2 mD "a" 0 (.jstr "hi") "a"⟩

/-- C6 as frozen is false for server.js: the rate counter runs before the
session check, so the reachable partnerless sender whose window already
counts 60 messages gets `error_ratelimit` — not `error_no_partner` — on its
61st well-formed send. -/
theorem claim_C6_counterexample :
    SReach (sMsgN 60) ∧
    mget (sMsgN 60).activePairs "a" = none ∧
    (SJ.step (sMsgN 60) "a" 0 (.msgSend (.jstr "hi"))).2 =
      [Out.toSock "a" .errRatelimit] ∧
    Out.toSock "a" .errNoPartner ∉
      (SJ.step (sMsgN 60) "a" 0 (.msgSend (.jstr "hi"))).2 := by
  refine ⟨sReach_sMsgN 60 (by decide), by decide, ?_, ?_⟩
  · rw [sMsgN_step 60]
    decide
  · rw [sMsgN_step 60]
    decide

/-- C6 amended: a participant with no active session sending a well-formed
non-empty message gets the no-partner error — unconditionally in part_000,
and in server.js provided the rate limiter passes the message (otherwise
`error_ratelimit` is emitted instead); in every case no message_receive is
delivered to anyone. -/
theorem claim_C6 :
    (∀ (s : P0.MState) (id : String) (now : Nat) (v : JVal),
      mget s.peers id = none →
      (jsTrim (jOrEmptyString v) ≠ "" →
        (P0.msgSend s id now v).2 = [Out.toSock id .errNoPartner]) ∧
      (∀ x t ts, Out.toSock x (.msgReceive t ts) ∉ (P0.msgSend s id now v).2)) ∧
    (∀ (s : SJ.SState) (id : String) (now : Nat) (v : JVal) (text : String),
      mget s.activePairs id = none →
      jIsString v = some text → jsTake (jsTrim text) SJ.MAX_MSG_LEN ≠ "" →
      ((SJ.checkMsgRate s.msgCount id now).2 = true →
        (SJ.msgSend s id now v).2 = [Out.toSock id .errNoPartner]) ∧
      (∀ x t ts, Out.toSock x (.msgReceive t ts) ∉ (SJ.msgSend s id now v).2)) := by
  constructor
  · intro s id now v hnp
    obtain ⟨hrec, herr⟩ := @msgSend_no_partner s id now v hnp
    exact ⟨herr, hrec⟩
  · intro s id now v text hnp hv hcl
    constructor
    · intro hok
      rw [sMsgSend_char hv hcl, if_neg (by rw [hok]; simp), hnp]
    · exact fun x t ts => sMsgSend_no_receive hnp x t ts
theorem claim_C6_witness :
    ((P0.msgSend mB "a" 3 (.jstr "yo")).2 = [Out.toSock "a" .errNoPartner] ∧
     Out.toSock "b" (.msgReceive "yo" 3) ∉ (P0.msgSend mB "a" 3 (.jstr "yo")).2) ∧
    ((SJ.msgSend sB "a" 3 (.jstr "yo")).2 = [Out.toSock "a" .errNoPartner] ∧
     Out.toSock "b" (.msgReceive "yo" 3) ∉ (SJ.msgSend sB "a" 3 (.jstr "yo")).2) := by
  constructor
  · obtain ⟨herr, hrec⟩ := claim_C6.1 mB "a" 3 (.jstr "yo") (by decide)
    exact ⟨herr (by decide), hrec "b" "yo" 3⟩
  · obtain ⟨herr, hrec⟩ := claim_C6.2 sB "a" 3 (.jstr "yo") "yo" (by decide)
      (by decide) (by decide)
    exact ⟨herr (by decide), hrec "b" "yo" 3⟩

/-- A 501-character payload, above the configured maximum length. -/
def longText : String := ⟨List.replicate 501 'x'⟩

set_option maxRecDepth 8192

/-- C7 as frozen is false for part_000: its message:send coerces the
payload with String(payload.text || ''), so in a reachable paired state a
non-string number 42 is delivered as the text "42" instead of being
silently dropped, and a 501-character string is delivered whole — never
truncated to the 500-character maximum. -/
theorem claim_C7_counterexample :
    MReach mD ∧
    (P0.step mD "a" 5 (.msgSend (.jnum 42))).2 =
      [Out.toSock "b" (.msgReceive "42" 5)] ∧
    (P0.step mD "a" 6 (.msgSend (.jstr longText))).2 =
      [Out.toSock "b" (.msgReceive longText 6)] ∧
    longText.length = 501 :=
  ⟨mReach_mD, by decide, by decide, by decide⟩

/-- C7 amended: server.js behaves as the claim states — a non-string
payload is silently dropped with no state change, the text is trimmed and
then truncated to MAX_MSG_LEN (500), an empty result is silently dropped,
and any delivered text equals exactly the trimmed-and-truncated string
(hence has at most 500 characters).  The part_000 variant instead coerces
the payload with String(payload.text || ''), trims, never truncates, and
delivers exactly that trimmed coercion. -/
theorem claim_C7 :
    (∀ (s : SJ.SState) (id : String) (now : Nat) (v : JVal),
      (jIsString v = none → SJ.msgSend s id now v = (s, [])) ∧
      (∀ text, jIsString v = some text →
        (jsTake (jsTrim text) SJ.MAX_MSG_LEN = "" →
          SJ.msgSend s id now v = (s, [])) ∧
        (∀ x t ts, Out.toSock x (.msgReceive t ts) ∈ (SJ.msgSend s id now v).2 →
          t = jsTake (jsTrim text) SJ.MAX_MSG_LEN ∧ t.length ≤ SJ.MAX_MSG_LEN))) ∧
    (∀ (s : P0.MState) (id : String) (now : Nat) (v : JVal),
      ∀ x t ts, Out.toSock x (.msgReceive t ts) ∈ (P0.msgSend s id now v).2 →
        t = jsTrim (jOrEmptyString v)) := by
  constructor
  · intro s id now v
    constructor
    · exact fun h => sMsgSend_nonstring h
    · intro text hv
      constructor
      · exact fun h => sMsgSend_empty hv h
      · intro x t ts hmem
        by_cases he : jsTake (jsTrim text) SJ.MAX_MSG_LEN = ""
        · rw [sMsgSend_empty hv he] at hmem
          cases hmem
        · rw [sMsgSend_char hv he] at hmem
          have ht : t = jsTake (jsTrim text) SJ.MAX_MSG_LEN := by
            by_cases hr : (SJ.checkMsgRate s.msgCount id now).2 = false
            · rw [if_pos hr] at hmem
              simp at hmem
            · rw [if_neg hr] at hmem
              cases hp : mget s.activePairs id with
              | none =>
                simp [hp] at hmem
              | some p =>
                by_cases hl : p ∈ s.live
                · simp [hp, hl] at hmem
                  exact hmem.2.1
                · simp [hp, hl] at hmem
          refine ⟨ht, ?_⟩
          rw [ht]
          show (List.take SJ.MAX_MSG_LEN (jsTrim text).data).length ≤ SJ.MAX_MSG_LEN
          exact List.length_take_le _ _
  · intro s id now v x t ts hmem
    by_cases he : jsTrim (jOrEmptyString v) = ""
    · rw [msgSend_empty he] at hmem
      cases hmem
    · rw [msgSend_char he] at hmem
      cases hp : mget s.peers id with
      | none =>
        simp [hp] at hmem
      | some p =>
        by_cases hl : p ∈ s.live
        · simp [hp, hl] at hmem
          exact hmem.2.1
        · simp [hp, hl] at hmem

theorem claim_C7_witness :
    (SJ.msgSend sD "a" 4 (.jnum 42) = (sD, []) ∧
     SJ.msgSend sD "a" 4 (.jstr "   ") = (sD, []) ∧
     ("x" = jsTake (jsTrim " x ") SJ.MAX_MSG_LEN ∧
        ("x" : String).length ≤ SJ.MAX_MSG_LEN)) ∧
    "42" = jsTrim (jOrEmptyString (.jnum 42)) := by
  refine ⟨⟨?_, ?_, ?_⟩, ?_⟩
  · exact (claim_C7.1 sD "a" 4 (.jnum 42)).1 (by decide)
  · exact ((claim_C7.1 sD "a" 4 (.jstr "   ")).2 "   " (by decide)).1 (by decide)
  · exact ((claim_C7.1 sD "a" 4 (.jstr " x ")).2 " x " (by decide)).2 "b" "x" 4
      (by decide)
  · exact claim_C7.2 mD "a" 4 (.jnum 42) "b" "42" 4 (by decide)

/-- C8: ending a chat with an active session unlinks both sides, notifies
the partner with the partner-left signal, and afterwards a message from
either former participant produces no message_receive anywhere; with no
session it is a no-op on the session state — in both variants. -/
theorem claim_C8 :
    (∀ (s : P0.MState) (id : String) (now : Nat), MReach s →
      (∀ p, mget s.peers id = some p →
        mget (P0.step s id now .chatEnd).1.peers id = none ∧
        mget (P0.step s id now .chatEnd).1.peers p = none ∧
        Out.toSock p .partnerLeft ∈ (P0.step s id now .chatEnd).2 ∧
        (∀ (now2 : Nat) (v : JVal) x t ts,
          Out.toSock x (.msgReceive t ts) ∉
            (P0.msgSend (P0.step s id now .chatEnd).1 p now2 v).2) ∧
        (∀ (now2 : Nat) (v : JVal) x t ts,
          Out.toSock x (.msgReceive t ts) ∉
            (P0.msgSend (P0.step s id now .chatEnd).1 id now2 v).2)) ∧
      (mget s.peers id = none →
        (P0.step s id now .chatEnd).1.peers = s.peers ∧
        (P0.step s id now .chatEnd).1.chatting = s.chatting)) ∧
    (∀ (s : SJ.SState) (id : String) (now : Nat), SReach s →
      (∀ p, mget s.activePairs id = some p →
        mget (SJ.step s id now .chatEnd).1.activePairs id = none ∧
        mget (SJ.step s id now .chatEnd).1.activePairs p = none ∧
        Out.toSock p .partnerLeft ∈ (SJ.step s id now .chatEnd).2 ∧
        (∀ (now2 : Nat) (v : JVal) x t ts,
          Out.toSock x (.msgReceive t ts) ∉
            (SJ.msgSend (SJ.step s id now .chatEnd).1 p now2 v).2) ∧
        (∀ (now2 : Nat) (v : JVal) x t ts,
          Out.toSock x (.msgReceive t ts) ∉
            (SJ.msgSend (SJ.step s id now .chatEnd).1 id now2 v).2)) ∧
      (mget s.activePairs id = none →
        (SJ.step s id now .chatEnd).1 = s ∧
        (SJ.step s id now .chatEnd).2 = [])) := by
  constructor
  · intro s id now hr
    have hs := minv_reach hr
    constructor
    · intro p hp
      obtain ⟨h1, h2, h3⟩ := chatEnd_char hs now hp
      exact ⟨h1, h2, h3,
        fun now2 v x t ts => (msgSend_no_partner h2).1 x t ts,
        fun now2 v x t ts => (msgSend_no_partner h1).1 x t ts⟩
    · exact fun hp => chatEnd_noop now hp
  · intro s id now hr
    have hs := sinv_reach hr
    constructor
    · intro p hp
      obtain ⟨h1, h2, h3⟩ := sChatEnd_char hs now hp
      exact ⟨h1, h2, h3,
        fun now2 v x t ts => sMsgSend_no_receive h2 x t ts,
        fun now2 v x t ts => sMsgSend_no_receive h1 x t ts⟩
    · exact fun hp => sChatEnd_noop hs now hp

theorem claim_C8_witness :
    (mget (P0.step mD "a" 9 .chatEnd).1.peers "a" = none ∧
     mget (P0.step mD "a" 9 .chatEnd).1.peers "b" = none ∧
     Out.toSock "b" .partnerLeft ∈ (P0.step mD "a" 9 .chatEnd).2 ∧
     Out.toSock "a" (.msgReceive "hi" 10) ∉
       (P0.msgSend (P0.step mD "a" 9 .chatEnd).1 "b" 10 (.jstr "hi")).2 ∧
     (P0.step mB "a" 9 .chatEnd).1.peers = mB.peers) ∧
    (mget (SJ.step sD "a" 9 .chatEnd).1.activePairs "a" = none ∧
     mget (SJ.step sD "a" 9 .chatEnd).1.activePairs "b" = none ∧
     Out.toSock "b" .partnerLeft ∈ (SJ.step sD "a" 9 .chatEnd).2 ∧
     Out.toSock "a" (.msgReceive "hi" 10) ∉
       (SJ.msgSend (SJ.step sD "a" 9 .chatEnd).1 "b" 10 (.jstr "hi")).2 ∧
     (SJ.step sB "a" 9 .chatEnd).1 = sB) := by
  constructor
  · obtain ⟨hact, hnoop⟩ := claim_C8.1 mD "a" 9 mReach_mD
    obtain ⟨h1, h2, h3, h4, _⟩ := hact "b" (by decide)
    refine ⟨h1, h2, h3, h4 10 (.jstr "hi") "a" "hi" 10, ?_⟩
    exact ((claim_C8.1 mB "a" 9 mReach_mB).2 (by decide)).1
  · obtain ⟨hact, hnoop⟩ := claim_C8.2 sD "a" 9 sReach_sD
    obtain ⟨h1, h2, h3, h4, _⟩ := hact "b" (by decide)
    refine ⟨h1, h2, h3, h4 10 (.jstr "hi") "a" "hi" 10, ?_⟩
    exact ((claim_C8.2 sB "a" 9 sReach_sB).2 (by decide)).1

/-- C9: (part_000) if the scan's chosen candidate has no live socket,
tryMatch deletes it from the pool and retries the scan on the remainder, so
a not-chatting requester's attempt never fails — it always ends matched to a
live partner or enqueued as waiting, and is never paired with a dead
connection; (server.js) a reachable find_partner never pairs the requester
with a disconnected socket. -/
theorem claim_C9 :
    (∀ (s : P0.MState) (id c : String) (info : P0.WEntry) (tags : List String)
      (now : Nat), ¬ P0.isChatting s id →
      P0.firstCandidate s id tags = some (c, info) → c ∉ s.live →
      P0.tryMatch s id tags now =
        P0.tryMatch { s with waiting := mdel s.waiting c } id tags now) ∧
    (∀ (s : P0.MState) (id : String) (tags : List String) (now : Nat),
      mget s.peers id = none →
      (∃ c, c ∈ s.live ∧ mget (P0.tryMatch s id tags now).1.peers id = some c ∧
        Out.toSock id .matched ∈ (P0.tryMatch s id tags now).2) ∨
      (mget (P0.tryMatch s id tags now).1.waiting id = some ⟨tags, now⟩ ∧
        Out.toSock id .waiting ∈ (P0.tryMatch s id tags now).2 ∧
        mget (P0.tryMatch s id tags now).1.peers id = none)) ∧
    (∀ (s : SJ.SState) (id : String) (now : Nat) (raw : Option (List JVal)),
      SReach s → id ∈ s.live → ∀ p,
      mget (SJ.step s id now (.findPartner raw)).1.activePairs id = some p →
      p ∈ s.live) := by
  refine ⟨?_, ?_, ?_⟩
  · intro s id c info tags now hnc hc hl
    exact tryMatch_some_dead hnc hc hl
  · intro s id tags now hnc
    exact tryMatch_sound s.waiting.length s id tags now (Nat.le_refl _) hnc
  · intro s id now raw hr hid p hp
    have h := @sFindPartner_char s id now raw (sinv_reach hr) hid
    cases hf : s.waitingQueue.find? (fun i => decide (i ≠ id)) with
    | none =>
      rw [hf] at h
      rw [h.2.2] at hp
      cases hp
    | some pid =>
      rw [hf] at h
      have := h.2.1.symm.trans hp
      have hpe : pid = p := Option.some.inj this
      exact hpe ▸ h.1

/-- A state whose only pool entry is a stale (disconnected) socket. -/
def wDead : P0.MState := ⟨2, 0, [("g", ⟨[], 0⟩)], [], ["b"]⟩

theorem claim_C9_witness :
    (P0.tryMatch wDead "b" [] 9 =
      P0.tryMatch { wDead with waiting := mdel wDead.waiting "g" } "b" [] 9) ∧
    ((∃ c, c ∈ mC.live ∧ mget (P0.tryMatch mC "b" [] 9).1.peers "b" = some c ∧
        Out.toSock "b" .matched ∈ (P0.tryMatch mC "b" [] 9).2) ∨
      (mget (P0.tryMatch mC "b" [] 9).1.waiting "b" = some ⟨[], 9⟩ ∧
        Out.toSock "b" .waiting ∈ (P0.tryMatch mC "b" [] 9).2 ∧
        mget (P0.tryMatch mC "b" [] 9).1.peers "b" = none)) ∧
    "a" ∈ sC.live :=
  ⟨claim_C9.1 wDead "b" "g" ⟨[], 0⟩ [] 9 (by decide) (by decide) (by decide),
   claim_C9.2.1 mC "b" [] 9 (by decide),
   claim_C9.2.2 sC "b" 9 none sReach_sC (by decide) "a" (by decide)⟩

/-- C10: in server.js the per-minute rate counter is charged before the
session-existence check: a well-formed non-empty message always updates the
sender's msgCount entry (incrementing an unexpired window), even with no
partner, and a partnerless sender whose message fails the rate check
receives error:ratelimit instead of the no-partner error. -/
theorem claim_C10 :
    ∀ (s : SJ.SState) (id : String) (now : Nat) (v : JVal) (text : String),
      jIsString v = some text → jsTake (jsTrim text) SJ.MAX_MSG_LEN ≠ "" →
      ((SJ.msgSend s id now v).1.msgCount =
        (SJ.checkMsgRate s.msgCount id now).1) ∧
      (∀ d : SJ.Rate, mget s.msgCount id = some d → ¬ now > d.resetAt →
        mget (SJ.msgSend s id now v).1.msgCount id =
          some ⟨d.count + 1, d.resetAt⟩) ∧
      (mget s.activePairs id = none →
        (SJ.checkMsgRate s.msgCount id now).2 = false →
        (SJ.msgSend s id now v).2 = [Out.toSock id .errRatelimit] ∧
        Out.toSock id .errNoPartner ∉ (SJ.msgSend s id now v).2) := by
  intro s id now v text hv hcl
  refine ⟨?_, ?_, ?_⟩
  · rw [sMsgSend_char hv hcl]
  · intro d hd hwin
    rw [sMsgSend_char hv hcl]
    show mget (SJ.checkMsgRate s.msgCount id now).1 id = _
    rw [(checkMsgRate_char s.msgCount id now).1 d hd hwin]
    exact mget_mset_self _ _ _
  · intro _ hfalse
    rw [sMsgSend_char hv hcl, if_pos hfalse]
    exact ⟨rfl, by simp⟩

theorem claim_C10_witness :
    ((SJ.msgSend (sMsgN 60) "a" 0 (.jstr "hi")).1.msgCount =
      (SJ.checkMsgRate (sMsgN 60).msgCount "a" 0).1) ∧
    (mget (SJ.msgSend (sMsgN 60) "a" 0 (.jstr "hi")).1.msgCount "a" =
      some ⟨61, 60000⟩) ∧
    ((SJ.msgSend (sMsgN 60) "a" 0 (.jstr "hi")).2 =
      [Out.toSock "a" .errRatelimit]) ∧
    Out.toSock "a" .errNoPartner ∉ (SJ.msgSend (sMsgN 60) "a" 0 (.jstr "hi")).2 := by
  obtain ⟨h1, h2, h3⟩ := claim_C10 (sMsgN 60) "a" 0 (.jstr "hi") "hi"
    (by decide) (by decide)
  have h2' := h2 ⟨60, 60000⟩ (by decide) (by decide)
  obtain ⟨h3a, h3b⟩ := h3 (by decide) (by decide)
  exact ⟨h1, h2', h3a, h3b⟩
